import Mathlib

/-!
Verification of the entity-centric memory engine of the `openclaw` repository.

The TypeScript sources are shallowly embedded as Lean definitions.
Modelling conventions, used throughout:

* JavaScript numbers are modelled by exact rationals (`ℚ`); the importance
  scorer, whose score formula calls `Math.exp`, is modelled over the reals.
* `Date.now()` (and every other read of the clock) is modelled by an explicit
  `now` parameter threaded into the functions that consult it.
* `Array.prototype.sort` is stable in ECMAScript; every stable sort of a list
  under a total preorder yields the same list, so it is modelled by
  `List.insertionSort`, which is stable.
* The file stores behind `EntityManager`, `OpinionsManager` and
  `ImportanceScorer` are modelled as explicit in-memory states; a
  `load`/`save` pair through the storage medium is the identity on the state.
* String lengths count Unicode scalar values where JavaScript counts UTF-16
  units; the two agree on all strings appearing in the development.
-/

namespace OpenClaw

/-- Fact types (`src/memory/entity-types.ts`, `FactType`). -/
inductive FactType
  | world
  | experience
  | opinion
  | summary
  | observation
deriving DecidableEq, Repr

/-- The date-range attached to a time-bound fact (`Fact.dateRange`);
the source field `end` is called `endTime` here because `end` is a Lean
keyword. -/
structure DateRange where
  start : ℤ
  endTime : Option ℤ
deriving DecidableEq, Repr

/-- Fact record (`src/memory/entity-types.ts`, `Fact`). -/
structure Fact where
  id : String
  type : FactType
  content : String
  entities : List String
  confidence : Option ℚ
  source : String
  timestamp : ℤ
  dateRange : Option DateRange
  supportingEvidence : Option (List String)
  contradictingEvidence : Option (List String)
deriving DecidableEq, Repr

/-- Evidence polarity (`src/memory/confidence-tracker.ts`, the string union
`"supporting" | "contradicting"`). -/
inductive EvidenceType
  | supporting
  | contradicting
deriving DecidableEq, Repr

/-- The literal JavaScript string for an `EvidenceType` value. -/
def EvidenceType.str : EvidenceType → String
  | .supporting => "supporting"
  | .contradicting => "contradicting"

/-- Evidence record (`src/memory/confidence-tracker.ts`, `Evidence`). -/
structure Evidence where
  factId : String
  type : EvidenceType
  strength : ℚ
  addedAt : ℤ
deriving DecidableEq, Repr

/-- Opinion state (`src/memory/confidence-tracker.ts`, `OpinionState`). -/
structure OpinionState where
  fact : Fact
  confidence : ℚ
  supportingEvidence : List Evidence
  contradictingEvidence : List Evidence
  lastUpdated : ℤ
deriving DecidableEq, Repr

/-- Result of a confidence update (`src/memory/confidence-tracker.ts`,
`ConfidenceUpdate`). -/
structure ConfidenceUpdate where
  confidence : ℚ
  reason : String
  evidence : Option Evidence
deriving DecidableEq, Repr

/-- Rendering of `x.toFixed(2)` for the rationals appearing in this
development: `n` is `100 * q` rounded half-up, computed on the raw
numerator/denominator representation so that concrete instances evaluate by
kernel reduction (`toFixed2_num_eq_round` below identifies it with `round`),
then printed with exactly two fractional digits. -/
def toFixed2 (q : ℚ) : String :=
  let n : ℤ := (200 * q.num + (q.den : ℤ)) / (2 * (q.den : ℤ))
  let ip := n / 100
  let fp := (n % 100).toNat
  toString ip ++ "." ++ (if fp < 10 then "0" else "") ++ toString fp

theorem toFixed2_num_eq_round (q : ℚ) :
    (200 * q.num + (q.den : ℤ)) / (2 * (q.den : ℤ)) = round (q * 100) := by
  have hden : (0 : ℚ) < (q.den : ℚ) := by
    exact_mod_cast Nat.pos_of_ne_zero q.den_nz
  have hcast : (2 * (q.den : ℤ)) = ((2 * q.den : ℕ) : ℤ) := by push_cast; ring
  have hval : q * 100 + 1 / 2 = ((200 * q.num + (q.den : ℤ) : ℤ) : ℚ) / ((2 * q.den : ℕ) : ℚ) := by
    have hq : (q.num : ℚ) / (q.den : ℚ) = q := Rat.num_div_den q
    have hqd : q * (q.den : ℚ) = (q.num : ℚ) := by
      nth_rewrite 1 [← hq]
      exact div_mul_cancel₀ _ (ne_of_gt hden)
    field_simp
    linear_combination 400 * hqd
  rw [round_eq, hcast, hval, Rat.floor_intCast_div_natCast]

/-- Confidence update from one piece of evidence
(`src/memory/confidence-tracker.ts`, `calculateConfidenceUpdate`). -/
def calculateConfidenceUpdate (currentConfidence : ℚ) (evidenceType : EvidenceType)
    (evidenceStrength : ℚ) : ConfidenceUpdate :=
  -- Clamp evidence strength to valid range
  let strength := max 0 (min 1 evidenceStrength)
  -- Calculate delta based on evidence type and strength
  let delta : ℚ :=
    match evidenceType with
    | .supporting => strength * (1 - currentConfidence) * 0.2
    | .contradicting => -(strength * currentConfidence * 0.3)
  let newConfidence := max 0 (min 1 (currentConfidence + delta))
  { confidence := newConfidence
    reason :=
      match evidenceType with
      | .supporting =>
          "Supporting evidence (strength: " ++ toFixed2 strength ++ ") increases confidence"
      | .contradicting =>
          "Contradicting evidence (strength: " ++ toFixed2 strength ++ ") decreases confidence"
    evidence := none }

/-- The comparator `(a, b) => b.strength - a.strength` used by
`calculateConfidenceFromEvidence` orders strongest-first. -/
def strengthDesc (a b : Evidence) : Prop := b.strength ≤ a.strength

instance : DecidableRel strengthDesc := fun a b =>
  inferInstanceAs (Decidable (b.strength ≤ a.strength))

instance : IsTotal Evidence strengthDesc := ⟨fun a b => le_total b.strength a.strength⟩

instance : IsTrans Evidence strengthDesc := ⟨fun _ _ _ h1 h2 => le_trans h2 h1⟩

/-- Folding one piece of evidence into the running confidence (the loop body of
`calculateConfidenceFromEvidence`). -/
def foldEvidence (confidence : ℚ) (ev : Evidence) : ℚ :=
  (calculateConfidenceUpdate confidence ev.type ev.strength).confidence

/-- Aggregate confidence from several pieces of evidence
(`src/memory/confidence-tracker.ts`, `calculateConfidenceFromEvidence`). -/
def calculateConfidenceFromEvidence (initialConfidence : ℚ) (evidence : List Evidence) : ℚ :=
  -- Sort evidence by strength (strongest first)
  let sortedEvidence := List.insertionSort strengthDesc evidence
  sortedEvidence.foldl foldEvidence initialConfidence

section ConfidenceClaims

/-- C2 counterexample: the claim asserts a strict confidence increase for every
evidence strength in `[0,1]`, but at strength `0` a supporting update leaves
the confidence unchanged. -/
theorem calculateConfidenceUpdate_zero_strength_counterexample :
    (calculateConfidenceUpdate 0.5 .supporting 0).confidence = 0.5 := by
  norm_num [calculateConfidenceUpdate]

/-- C2 (amended): for `c ∈ (0,1)` and `s ∈ [0,1]` the update returns exactly
`c + s*(1-c)*0.2` (supporting) resp. `c - s*c*0.3` (contradicting), the clamp
being inactive; the supporting update strictly increases and the contradicting
update strictly decreases the confidence whenever `s > 0`; and both results
stay inside `[0,1]`. -/
theorem calculateConfidenceUpdate_spec (c s : ℚ) (hc0 : 0 < c) (hc1 : c < 1)
    (hs0 : 0 ≤ s) (hs1 : s ≤ 1) :
    (calculateConfidenceUpdate c .supporting s).confidence = c + s * (1 - c) * 0.2 ∧
    (calculateConfidenceUpdate c .contradicting s).confidence = c - s * c * 0.3 ∧
    (0 < s → c < (calculateConfidenceUpdate c .supporting s).confidence) ∧
    (0 < s → (calculateConfidenceUpdate c .contradicting s).confidence < c) ∧
    0 ≤ (calculateConfidenceUpdate c .supporting s).confidence ∧
    (calculateConfidenceUpdate c .supporting s).confidence ≤ 1 ∧
    0 ≤ (calculateConfidenceUpdate c .contradicting s).confidence ∧
    (calculateConfidenceUpdate c .contradicting s).confidence ≤ 1 := by
  have hclamp : max 0 (min 1 s) = s := by
    rw [min_eq_right hs1, max_eq_right hs0]
  have hsupp : (calculateConfidenceUpdate c .supporting s).confidence
      = c + s * (1 - c) * 0.2 := by
    show max 0 (min 1 (c + max 0 (min 1 s) * (1 - c) * 0.2)) = _
    rw [hclamp]
    have h1 : c + s * (1 - c) * 0.2 ≤ 1 := by nlinarith
    have h0 : (0 : ℚ) ≤ c + s * (1 - c) * 0.2 := by nlinarith
    rw [min_eq_right h1, max_eq_right h0]
  have hcon : (calculateConfidenceUpdate c .contradicting s).confidence
      = c - s * c * 0.3 := by
    show max 0 (min 1 (c + -(max 0 (min 1 s) * c * 0.3))) = _
    rw [hclamp]
    have h1 : c + -(s * c * 0.3) ≤ 1 := by nlinarith
    have h0 : (0 : ℚ) ≤ c + -(s * c * 0.3) := by nlinarith
    rw [min_eq_right h1, max_eq_right h0]
    ring
  refine ⟨hsupp, hcon, ?_, ?_, ?_, ?_, ?_, ?_⟩
  · intro hs
    rw [hsupp]
    nlinarith
  · intro hs
    rw [hcon]
    nlinarith
  · rw [hsupp]; nlinarith
  · rw [hsupp]; nlinarith
  · rw [hcon]; nlinarith
  · rw [hcon]; nlinarith

/-- C2 witness: the amended theorem applied at `c = 1/2`, `s = 1/2`. -/
theorem calculateConfidenceUpdate_spec_witness :
    (calculateConfidenceUpdate (1/2) .supporting (1/2)).confidence
      = 1/2 + (1/2) * (1 - 1/2) * 0.2 :=
  (calculateConfidenceUpdate_spec (1/2) (1/2) (by norm_num) (by norm_num)
    (by norm_num) (by norm_num)).1

/-- C9: aggregation folds the evidence sequentially over a strongest-first
sorted permutation of the input, and this strongest-first order is
order-sensitive: for the concrete evidence pair below the strongest-first fold
and the weakest-first fold yield different confidences. -/
theorem calculateConfidenceFromEvidence_spec :
    (∀ (init : ℚ) (evidence : List Evidence),
      ∃ l, evidence.Perm l ∧ List.Sorted strengthDesc l ∧
        calculateConfidenceFromEvidence init evidence = l.foldl foldEvidence init) ∧
    (∀ strongId weakId : String,
      let eS : Evidence := ⟨strongId, .supporting, 1, 0⟩
      let eW : Evidence := ⟨weakId, .contradicting, 1/2, 0⟩
      calculateConfidenceFromEvidence 0.5 [eW, eS] = [eS, eW].foldl foldEvidence 0.5 ∧
      [eS, eW].foldl foldEvidence 0.5 ≠ [eW, eS].foldl foldEvidence 0.5) := by
  constructor
  · intro init evidence
    exact ⟨List.insertionSort strengthDesc evidence,
      (List.perm_insertionSort strengthDesc evidence).symm,
      List.sorted_insertionSort strengthDesc evidence, rfl⟩
  · intro strongId weakId
    constructor
    · show (List.insertionSort strengthDesc _).foldl foldEvidence 0.5 = _
      have : List.insertionSort strengthDesc
          [(⟨weakId, .contradicting, 1/2, 0⟩ : Evidence), ⟨strongId, .supporting, 1, 0⟩]
          = [⟨strongId, .supporting, 1, 0⟩, ⟨weakId, .contradicting, 1/2, 0⟩] := by
        simp [List.insertionSort, List.orderedInsert, strengthDesc]
        norm_num
      rw [this]
    · simp only [List.foldl, foldEvidence, calculateConfidenceUpdate]
      norm_num

end ConfidenceClaims

/-! JavaScript string and `Set` primitives used by the conflict detector. -/

/-- Check whether `sub` is a prefix of `hay` (character lists). -/
def listStartsWith : List Char → List Char → Bool
  | [], _ => true
  | _ :: _, [] => false
  | c :: cs, h :: hs => c = h && listStartsWith cs hs

/-- Check whether `sub` occurs as a contiguous substring of `hay`
(JavaScript `String.prototype.includes`). -/
def listContainsSub : List Char → List Char → Bool
  | [], sub => sub.isEmpty
  | h :: t, sub => listStartsWith sub (h :: t) || listContainsSub t sub

/-- JavaScript `hay.includes(sub)`. -/
def jsIncludes (hay sub : String) : Bool :=
  listContainsSub hay.data sub.data

/-- Whitespace for the regex class `\s` (the ASCII part, which covers every
string this development evaluates on). -/
def isWsChar (c : Char) : Bool :=
  c = ' ' || c = '\t' || c = '\n' || c = '\r' || c = Char.ofNat 12 || c = Char.ofNat 11

mutual

/-- State of `String.prototype.split(/\s+/)` while reading a word whose
characters so far are `cur` (reversed). -/
def splitWsWord (cur : List Char) : List Char → List String
  | [] => [String.mk cur.reverse]
  | c :: rest =>
    if isWsChar c then String.mk cur.reverse :: splitWsSkip rest
    else splitWsWord (c :: cur) rest

/-- State of `String.prototype.split(/\s+/)` while consuming a whitespace
run; a run that reaches the end of the string yields a trailing empty piece,
as in JavaScript. -/
def splitWsSkip : List Char → List String
  | [] => [""]
  | c :: rest => if isWsChar c then splitWsSkip rest else splitWsWord [c] rest

end

/-- JavaScript `s.split(/\s+/)` (with the leading/trailing empty pieces the
regex split produces). -/
def jsSplitWs (s : String) : List String :=
  splitWsWord [] s.data

/-- Deduplication keeping first occurrences, i.e. the element list of the
JavaScript `new Set(l)` in iteration order; `seen` holds the values already
emitted. -/
def jsSetAux {α} [DecidableEq α] (seen : List α) : List α → List α
  | [] => []
  | a :: t => if a ∈ seen then jsSetAux seen t else a :: jsSetAux (a :: seen) t

/-- The element list of `new Set(l)` in iteration order. -/
def jsSetList {α} [DecidableEq α] (l : List α) : List α :=
  jsSetAux [] l

theorem mem_jsSetAux {α} [DecidableEq α] (l : List α) :
    ∀ (seen : List α) (x : α), x ∈ jsSetAux seen l ↔ x ∈ l ∧ x ∉ seen := by
  induction l with
  | nil => intro seen x; simp [jsSetAux]
  | cons a t ih =>
    intro seen x
    by_cases ha : a ∈ seen
    · rw [jsSetAux, if_pos ha, ih]
      constructor
      · rintro ⟨hx, hs⟩
        exact ⟨List.mem_cons_of_mem a hx, hs⟩
      · rintro ⟨hx, hs⟩
        rcases List.mem_cons.1 hx with rfl | hx
        · exact absurd ha hs
        · exact ⟨hx, hs⟩
    · rw [jsSetAux, if_neg ha]
      constructor
      · intro hx
        rcases List.mem_cons.1 hx with rfl | hx
        · exact ⟨List.mem_cons_self _ _, ha⟩
        · obtain ⟨h1, h2⟩ := (ih (a :: seen) x).1 hx
          exact ⟨List.mem_cons_of_mem a h1, fun hs => h2 (List.mem_cons_of_mem a hs)⟩
      · rintro ⟨hx, hs⟩
        rcases List.mem_cons.1 hx with rfl | hx
        · exact List.mem_cons_self _ _
        · by_cases hxa : x = a
          · subst hxa; exact List.mem_cons_self _ _
          · refine List.mem_cons_of_mem a ((ih (a :: seen) x).2 ⟨hx, fun h => ?_⟩)
            rcases List.mem_cons.1 h with h' | h'
            · exact hxa h'
            · exact hs h'

theorem mem_jsSetList {α} [DecidableEq α] (l : List α) (x : α) :
    x ∈ jsSetList l ↔ x ∈ l := by
  simp [jsSetList, mem_jsSetAux]

theorem nodup_jsSetAux {α} [DecidableEq α] (l : List α) :
    ∀ seen : List α, (jsSetAux seen l).Nodup := by
  induction l with
  | nil => intro seen; simp [jsSetAux]
  | cons a t ih =>
    intro seen
    by_cases ha : a ∈ seen
    · rw [jsSetAux, if_pos ha]; exact ih seen
    · rw [jsSetAux, if_neg ha]
      exact List.Nodup.cons
        (fun h => ((mem_jsSetAux t (a :: seen) a).1 h).2 (List.mem_cons_self a seen))
        (ih (a :: seen))

theorem nodup_jsSetList {α} [DecidableEq α] (l : List α) : (jsSetList l).Nodup :=
  nodup_jsSetAux l []

theorem toFinset_jsSetList {α} [DecidableEq α] (l : List α) :
    (jsSetList l).toFinset = l.toFinset := by
  ext x
  simp [List.mem_toFinset, mem_jsSetList]

/-- Length of the filtered intersection of two duplicate-free lists is
symmetric: both sides count the (finite) set of common elements. -/
theorem filter_mem_length_comm {α} [DecidableEq α] (l1 l2 : List α)
    (h1 : l1.Nodup) (h2 : l2.Nodup) :
    (l1.filter (fun x => l2.contains x)).length
      = (l2.filter (fun x => l1.contains x)).length := by
  have key : ∀ (a b : List α), a.Nodup →
      (a.filter (fun x => b.contains x)).length = (a.toFinset ∩ b.toFinset).card := by
    intro a b ha
    have hnodup : (a.filter (fun x => b.contains x)).Nodup := ha.filter _
    have htf : (a.filter (fun x => b.contains x)).toFinset = a.toFinset ∩ b.toFinset := by
      ext x
      simp [List.mem_toFinset, List.mem_filter]
    calc (a.filter (fun x => b.contains x)).length
        = (a.filter (fun x => b.contains x)).toFinset.card :=
          (List.toFinset_card_of_nodup hnodup).symm
      _ = (a.toFinset ∩ b.toFinset).card := by rw [htf]
  rw [key l1 l2 h1, key l2 l1 h2, Finset.inter_comm]

theorem jsSetList_append_length_comm {α} [DecidableEq α] (l1 l2 : List α) :
    (jsSetList (l1 ++ l2)).length = (jsSetList (l2 ++ l1)).length := by
  have key : ∀ a b : List α,
      (jsSetList (a ++ b)).length = (a.toFinset ∪ b.toFinset).card := by
    intro a b
    calc (jsSetList (a ++ b)).length
        = (jsSetList (a ++ b)).toFinset.card :=
          (List.toFinset_card_of_nodup (nodup_jsSetList _)).symm
      _ = (a.toFinset ∪ b.toFinset).card := by
          rw [toFinset_jsSetList, List.toFinset_append]
  rw [key, key, Finset.union_comm]

/-- JavaScript `s.startsWith(pre)`. -/
def jsStartsWith (s pre : String) : Bool :=
  listStartsWith pre.data s.data

/-- JavaScript `String.prototype.toLowerCase` on one character (the ASCII
part, which covers the strings this development evaluates). -/
def lowerChar (c : Char) : Char :=
  if 65 ≤ c.toNat ∧ c.toNat ≤ 90 then Char.ofNat (c.toNat + 32) else c

/-- JavaScript `s.toLowerCase()`. -/
def jsToLower (s : String) : String :=
  String.mk (s.data.map lowerChar)

/-- JavaScript `s.slice(n)` for a non-negative `n`. -/
def jsDrop (s : String) (n : ℕ) : String :=
  String.mk (s.data.drop n)

/-! Conflict detection (`src/memory/confidence-tracker.ts`). -/

/-- The apostrophe character (kept out of string literals). -/
def apos : String := (Char.ofNat 39).toString

/-- Negation markers scanned by `areContradictory`. -/
def negationWords : List String :=
  ["not", "no", "never", "none", "doesn" ++ apos ++ "t", "don" ++ apos ++ "t",
   "won" ++ apos ++ "t", "can" ++ apos ++ "t"]

/-- Whether a (lower-cased) content string contains a negation marker. -/
def hasNegation (content : String) : Bool :=
  negationWords.any (fun word => jsIncludes content word)

/-- The word set of a lower-cased content string: split on whitespace, keep
words longer than three characters, collect into a `Set`. -/
def wordSet (content : String) : List String :=
  jsSetList ((jsSplitWs content).filter (fun w => decide (3 < w.length)))

/-- The lexical word-overlap ratio `overlap / max(1, totalUnique)` shared by
`areContradictory` and `areInconsistent`. -/
def wordOverlapSimilarity (content1 content2 : String) : ℚ :=
  ((((wordSet content1).filter (fun w => (wordSet content2).contains w)).length : ℚ)) /
    max 1 ((jsSetList (wordSet content1 ++ wordSet content2)).length : ℚ)

theorem nodup_wordSet (c : String) : (wordSet c).Nodup :=
  nodup_jsSetList _

theorem wordOverlapSimilarity_comm (c1 c2 : String) :
    wordOverlapSimilarity c1 c2 = wordOverlapSimilarity c2 c1 := by
  unfold wordOverlapSimilarity
  rw [filter_mem_length_comm _ _ (nodup_wordSet c1) (nodup_wordSet c2),
    jsSetList_append_length_comm]

/-- Check if two facts are contradictory (`areContradictory`): exactly one
content contains a negation marker, the facts mention a common entity, and the
word-set overlap exceeds `0.3`. -/
def areContradictory (fact1 fact2 : Fact) : Bool :=
  if hasNegation fact1.content.toLower != hasNegation fact2.content.toLower then
    if 0 < (fact1.entities.filter (fun e => fact2.entities.contains e)).length then
      decide (wordOverlapSimilarity fact1.content.toLower fact2.content.toLower > 0.3)
    else false
  else false

/-- Check if two facts are inconsistent (`areInconsistent`): a shared entity,
word-set overlap exceeding `0.4`, and a confidence gap exceeding `0.3` (missing
confidence reads as `0`, matching the JavaScript `fact.confidence || 0`). -/
def areInconsistent (fact1 fact2 : Fact) : Bool :=
  if (fact1.entities.filter (fun e => fact2.entities.contains e)).length = 0 then false
  else
    decide (wordOverlapSimilarity fact1.content.toLower fact2.content.toLower > 0.4) &&
      decide (|fact1.confidence.getD 0 - fact2.confidence.getD 0| > 0.3)

theorem shared_pos_iff (l1 l2 : List String) :
    0 < (l1.filter (fun e => l2.contains e)).length ↔ ∃ x, x ∈ l1 ∧ x ∈ l2 := by
  rw [List.length_pos_iff_exists_mem]
  constructor
  · rintro ⟨x, hx⟩
    rw [List.mem_filter] at hx
    exact ⟨x, hx.1, by simpa using hx.2⟩
  · rintro ⟨x, hx1, hx2⟩
    exact ⟨x, List.mem_filter.2 ⟨hx1, by simpa using hx2⟩⟩

theorem shared_pos_comm (l1 l2 : List String) :
    (0 < (l1.filter (fun e => l2.contains e)).length)
      ↔ (0 < (l2.filter (fun e => l1.contains e)).length) := by
  rw [shared_pos_iff, shared_pos_iff]
  exact ⟨fun ⟨x, h1, h2⟩ => ⟨x, h2, h1⟩, fun ⟨x, h1, h2⟩ => ⟨x, h2, h1⟩⟩

theorem areContradictory_comm (f1 f2 : Fact) :
    areContradictory f1 f2 = areContradictory f2 f1 := by
  unfold areContradictory
  have hb : (hasNegation f1.content.toLower != hasNegation f2.content.toLower)
      = (hasNegation f2.content.toLower != hasNegation f1.content.toLower) := by
    cases hasNegation f1.content.toLower <;> cases hasNegation f2.content.toLower <;> rfl
  rw [hb]
  exact if_congr Iff.rfl
    (if_congr (shared_pos_comm _ _) (by rw [wordOverlapSimilarity_comm]) rfl) rfl

theorem areInconsistent_comm (f1 f2 : Fact) :
    areInconsistent f1 f2 = areInconsistent f2 f1 := by
  unfold areInconsistent
  have hp := shared_pos_comm f1.entities f2.entities
  have hz : ((f1.entities.filter (fun e => f2.entities.contains e)).length = 0)
      ↔ ((f2.entities.filter (fun e => f1.entities.contains e)).length = 0) := by
    constructor
    · intro h
      by_contra hne
      have h2 := hp.2 (Nat.pos_of_ne_zero hne)
      omega
    · intro h
      by_contra hne
      have h2 := hp.1 (Nat.pos_of_ne_zero hne)
      omega
  exact if_congr hz rfl (by rw [wordOverlapSimilarity_comm, abs_sub_comm])

/-- Conflict kinds (`src/memory/confidence-tracker.ts`, `Conflict.type`). -/
inductive ConflictType
  | contradiction
  | inconsistency
  | overlap
deriving DecidableEq, Repr

/-- Conflict record (`src/memory/confidence-tracker.ts`, `Conflict`). -/
structure Conflict where
  factId1 : String
  factId2 : String
  type : ConflictType
  severity : ℚ
  description : String
  entities : List String
deriving DecidableEq, Repr

/-- The conflicts the inner loop of `detectConflicts` pushes for a pair
`(op1, op2)`: a contradiction entry, then an inconsistency entry, each only
when the corresponding check fires. -/
def pairConflicts (op1 op2 : OpinionState) : List Conflict :=
  (if areContradictory op1.fact op2.fact then
    [{ factId1 := op1.fact.id
       factId2 := op2.fact.id
       type := .contradiction
       severity := |op1.confidence - op2.confidence|
       description := "Opinions contradict each other: \"" ++ op1.fact.content
         ++ "\" vs \"" ++ op2.fact.content ++ "\""
       entities := jsSetList (op1.fact.entities ++ op2.fact.entities) }]
  else []) ++
  (if areInconsistent op1.fact op2.fact then
    [{ factId1 := op1.fact.id
       factId2 := op2.fact.id
       type := .inconsistency
       severity := |op1.confidence - op2.confidence| * 0.7
       description := "Opinions are inconsistent: \"" ++ op1.fact.content
         ++ "\" vs \"" ++ op2.fact.content ++ "\""
       entities := jsSetList (op1.fact.entities ++ op2.fact.entities) }]
  else [])

/-- The double loop `for i; for j > i` of `detectConflicts`, in push order. -/
def detectConflictsGo : List OpinionState → List Conflict
  | [] => []
  | op1 :: rest => (rest.map (pairConflicts op1)).flatten ++ detectConflictsGo rest

/-- The comparator `(a, b) => b.severity - a.severity` orders conflicts by
descending severity. -/
def severityDesc (a b : Conflict) : Prop := b.severity ≤ a.severity

instance : DecidableRel severityDesc := fun a b =>
  inferInstanceAs (Decidable (b.severity ≤ a.severity))

instance : IsTotal Conflict severityDesc := ⟨fun a b => le_total b.severity a.severity⟩

instance : IsTrans Conflict severityDesc := ⟨fun _ _ _ h1 h2 => le_trans h2 h1⟩

/-- Detect conflicts between opinions
(`src/memory/confidence-tracker.ts`, `detectConflicts`). -/
def detectConflicts (opinions : List OpinionState) : List Conflict :=
  List.insertionSort severityDesc (detectConflictsGo opinions)

section ConflictClaims

/-- C7: for every pair of opinions, `detectConflicts [a, b]` and
`detectConflicts [b, a]` report the same unordered fact-id pairs with the same
conflict types and severities (the id pair is swapped, everything else agrees);
both outputs are sorted by descending severity; and every reported conflict has
severity `|confidence a - confidence b|` when it is a contradiction and that
value times `0.7` when it is an inconsistency. -/
theorem detectConflicts_pair_symm (a b : OpinionState) :
    ((detectConflicts [b, a]).map (fun c => (c.factId2, c.factId1, c.type, c.severity))
      = (detectConflicts [a, b]).map (fun c => (c.factId1, c.factId2, c.type, c.severity))) ∧
    List.Sorted severityDesc (detectConflicts [a, b]) ∧
    List.Sorted severityDesc (detectConflicts [b, a]) ∧
    (∀ c ∈ detectConflicts [a, b],
      (c.type = .contradiction → c.severity = |a.confidence - b.confidence|) ∧
      (c.type = .inconsistency → c.severity = |a.confidence - b.confidence| * 0.7) ∧
      c.type ≠ .overlap) := by
  have hgo : ∀ x y : OpinionState, detectConflictsGo [x, y] = pairConflicts x y := by
    intro x y
    simp [detectConflictsGo]
  have habs : |b.confidence - a.confidence| = |a.confidence - b.confidence| :=
    abs_sub_comm _ _
  have hsort2 : ∀ u v : Conflict, severityDesc u v →
      List.insertionSort severityDesc [u, v] = [u, v] := by
    intro u v huv
    simp only [List.insertionSort, List.orderedInsert]
    rw [if_pos huv]
  have hsev : severityDesc
      { factId1 := a.fact.id, factId2 := b.fact.id, type := ConflictType.contradiction,
        severity := |a.confidence - b.confidence|,
        description := "Opinions contradict each other: \"" ++ a.fact.content
          ++ "\" vs \"" ++ b.fact.content ++ "\"",
        entities := jsSetList (a.fact.entities ++ b.fact.entities) }
      { factId1 := a.fact.id, factId2 := b.fact.id, type := ConflictType.inconsistency,
        severity := |a.confidence - b.confidence| * 0.7,
        description := "Opinions are inconsistent: \"" ++ a.fact.content
          ++ "\" vs \"" ++ b.fact.content ++ "\"",
        entities := jsSetList (a.fact.entities ++ b.fact.entities) } := by
    show |a.confidence - b.confidence| * 0.7 ≤ |a.confidence - b.confidence|
    have := abs_nonneg (a.confidence - b.confidence)
    nlinarith
  have hsev' : severityDesc
      { factId1 := b.fact.id, factId2 := a.fact.id, type := ConflictType.contradiction,
        severity := |b.confidence - a.confidence|,
        description := "Opinions contradict each other: \"" ++ b.fact.content
          ++ "\" vs \"" ++ a.fact.content ++ "\"",
        entities := jsSetList (b.fact.entities ++ a.fact.entities) }
      { factId1 := b.fact.id, factId2 := a.fact.id, type := ConflictType.inconsistency,
        severity := |b.confidence - a.confidence| * 0.7,
        description := "Opinions are inconsistent: \"" ++ b.fact.content
          ++ "\" vs \"" ++ a.fact.content ++ "\"",
        entities := jsSetList (b.fact.entities ++ a.fact.entities) } := by
    show |b.confidence - a.confidence| * 0.7 ≤ |b.confidence - a.confidence|
    have := abs_nonneg (b.confidence - a.confidence)
    nlinarith
  have hcab := areContradictory_comm a.fact b.fact
  have hiab := areInconsistent_comm a.fact b.fact
  refine ⟨?_, List.sorted_insertionSort _ _, List.sorted_insertionSort _ _, ?_⟩
  · unfold detectConflicts
    rw [hgo, hgo]
    unfold pairConflicts
    rw [← hcab, ← hiab]
    by_cases hc : areContradictory a.fact b.fact <;>
      by_cases hi : areInconsistent a.fact b.fact <;>
        simp only [hc, hi, if_pos, if_neg, Bool.false_eq_true, not_false_iff,
          List.nil_append, List.append_nil, List.singleton_append, if_true, if_false]
    · rw [hsort2 _ _ hsev, hsort2 _ _ hsev']
      simp [habs]
    · simp [List.insertionSort, List.orderedInsert, habs]
    · simp [List.insertionSort, List.orderedInsert, habs]
    · simp [List.insertionSort, List.orderedInsert]
  · intro c hc
    have hmem : c ∈ detectConflictsGo [a, b] :=
      (List.perm_insertionSort severityDesc _).mem_iff.1 hc
    rw [hgo] at hmem
    unfold pairConflicts at hmem
    by_cases h1 : areContradictory a.fact b.fact <;>
      by_cases h2 : areInconsistent a.fact b.fact <;>
        simp only [h1, h2, if_true, if_false, Bool.false_eq_true, not_false_iff,
          List.nil_append, List.append_nil, List.singleton_append,
          List.mem_cons, List.mem_singleton, List.not_mem_nil, or_false] at hmem
    · rcases hmem with rfl | rfl
      · exact ⟨fun _ => rfl, fun h => ConflictType.noConfusion h,
          fun h => ConflictType.noConfusion h⟩
      · exact ⟨fun h => ConflictType.noConfusion h, fun _ => rfl,
          fun h => ConflictType.noConfusion h⟩
    · rcases hmem with rfl
      exact ⟨fun _ => rfl, fun h => ConflictType.noConfusion h,
        fun h => ConflictType.noConfusion h⟩
    · rcases hmem with rfl
      exact ⟨fun h => ConflictType.noConfusion h, fun _ => rfl,
        fun h => ConflictType.noConfusion h⟩

/-- A concrete opinion for the C7 witness. -/
def witnessOpinionA : OpinionState :=
  { fact :=
      { id := "f1", type := .opinion, content := "alpha likes coffee",
        entities := ["alpha"], confidence := some (mkRat 9 10), source := "s1",
        timestamp := 0, dateRange := none, supportingEvidence := none,
        contradictingEvidence := none }
    confidence := mkRat 9 10
    supportingEvidence := []
    contradictingEvidence := []
    lastUpdated := 0 }

/-- A concrete opinion for the C7 witness. -/
def witnessOpinionB : OpinionState :=
  { fact :=
      { id := "f2", type := .opinion, content := "alpha does not like coffee",
        entities := ["alpha"], confidence := some (mkRat 2 5), source := "s2",
        timestamp := 0, dateRange := none, supportingEvidence := none,
        contradictingEvidence := none }
    confidence := mkRat 2 5
    supportingEvidence := []
    contradictingEvidence := []
    lastUpdated := 0 }

/-- C7 witness: the symmetry theorem applied to a concrete opinion pair. -/
theorem detectConflicts_pair_symm_witness :
    (detectConflicts [witnessOpinionB, witnessOpinionA]).map
        (fun c => (c.factId2, c.factId1, c.type, c.severity))
      = (detectConflicts [witnessOpinionA, witnessOpinionB]).map
        (fun c => (c.factId1, c.factId2, c.type, c.severity)) :=
  (detectConflicts_pair_symm witnessOpinionA witnessOpinionB).1

end ConflictClaims

/-! Opinion store (`src/memory/opinions-manager.ts`). The persisted opinion
set (the contents of `bank/opinions.md`) is modelled as the list of opinion
states it encodes; `loadOpinions`/`saveOpinions` are the identity on that
state, and a function that returns without calling `saveOpinions` leaves the
state untouched. -/

/-- Update opinion confidence based on new evidence
(`src/memory/confidence-tracker.ts`, `updateOpinionConfidence`); the source
mutates `opinion` in place, modelled here by returning the updated record. -/
def updateOpinionConfidence (opinion : OpinionState) (evidence : Evidence) (now : ℤ) :
    OpinionState :=
  -- Add evidence to appropriate list
  let supportingEvidence :=
    if evidence.type = .supporting then opinion.supportingEvidence ++ [evidence]
    else opinion.supportingEvidence
  let contradictingEvidence :=
    if evidence.type = .contradicting then opinion.contradictingEvidence ++ [evidence]
    else opinion.contradictingEvidence
  -- Recalculate confidence; `opinion.fact.confidence || 0.5` reads a missing
  -- or zero confidence (zero is falsy in JavaScript) as 0.5
  let base : ℚ :=
    match opinion.fact.confidence with
    | some c => if c = 0 then 0.5 else c
    | none => 0.5
  let newConfidence := calculateConfidenceFromEvidence base
    (supportingEvidence ++ contradictingEvidence)
  { fact := { opinion.fact with
      confidence := some newConfidence
      supportingEvidence := some (supportingEvidence.map (·.factId))
      contradictingEvidence := some (contradictingEvidence.map (·.factId)) }
    confidence := newConfidence
    supportingEvidence := supportingEvidence
    contradictingEvidence := contradictingEvidence
    lastUpdated := now }

/-- Replace the first list entry satisfying `p` by `f` of it (the effect of
mutating the record that `Array.prototype.find` returned and saving the
array). -/
def updateFirst {α} (p : α → Bool) (f : α → α) : List α → List α
  | [] => []
  | a :: t => if p a then f a :: t else a :: updateFirst p f t

/-- Update opinion confidence with new evidence
(`src/memory/opinions-manager.ts`, `OpinionsManager.updateConfidence`):
returns the JavaScript return value together with the resulting persisted
opinion set. -/
def OpinionsManager.updateConfidence (persisted : List OpinionState) (factId : String)
    (evidence : Evidence) (now : ℤ) :
    Option (OpinionState × ConfidenceUpdate) × List OpinionState :=
  match persisted.find? (fun o => o.fact.id = factId) with
  | none => (none, persisted)
  | some opinion =>
    let updated := updateOpinionConfidence opinion evidence now
    let update : ConfidenceUpdate :=
      { confidence := updated.confidence
        reason := "Updated based on " ++ evidence.type.str ++ " evidence (strength: "
          ++ toFixed2 evidence.strength ++ ")"
        evidence := some evidence }
    (some (updated, update),
      updateFirst (fun o => o.fact.id = factId) (fun _ => updated) persisted)

section OpinionStoreClaims

/-- C10: updating confidence for a fact id that is not present in the
persisted opinion set returns `null` and leaves the persisted set completely
unchanged. -/
theorem updateConfidence_unknown_factId (persisted : List OpinionState)
    (factId : String) (evidence : Evidence) (now : ℤ)
    (h : ∀ o ∈ persisted, o.fact.id ≠ factId) :
    OpinionsManager.updateConfidence persisted factId evidence now = (none, persisted) := by
  unfold OpinionsManager.updateConfidence
  have hfind : persisted.find? (fun o => o.fact.id = factId) = none := by
    rw [List.find?_eq_none]
    intro o ho
    simpa using h o ho
  rw [hfind]

/-- C10 witness: a one-element persisted set and a fact id it does not
contain. -/
theorem updateConfidence_unknown_factId_witness :
    OpinionsManager.updateConfidence
      [{ fact :=
          { id := "fact-1", type := .opinion, content := "coffee is great",
            entities := ["user"], confidence := some 0.7, source := "bank/opinions.md",
            timestamp := 0, dateRange := none, supportingEvidence := none,
            contradictingEvidence := none }
         confidence := 0.7
         supportingEvidence := []
         contradictingEvidence := []
         lastUpdated := 0 }]
      "fact-2" ⟨"fact-3", .supporting, 0.8, 5⟩ 17
    = (none,
       [{ fact :=
            { id := "fact-1", type := .opinion, content := "coffee is great",
              entities := ["user"], confidence := some 0.7, source := "bank/opinions.md",
              timestamp := 0, dateRange := none, supportingEvidence := none,
              contradictingEvidence := none }
          confidence := 0.7
          supportingEvidence := []
          contradictingEvidence := []
          lastUpdated := 0 }]) := by
  apply updateConfidence_unknown_factId
  intro o ho
  simp only [List.mem_singleton] at ho
  subst ho
  decide

end OpinionStoreClaims

/-! Importance scorer (`src/memory/importance-scorer.ts`). The score formula
uses `Math.exp`, so this component is modelled over the reals. -/

/-- Usage-signal record (`ImportanceRecord`). -/
structure ImportanceRecord where
  retrievalCount : ℝ
  citationCount : ℝ
  userCorrectionCount : ℝ
  lastUpdated : ℝ

/-- Scoring weights (`ImportanceWeights`). -/
structure ImportanceWeights where
  retrieval : ℝ
  citation : ℝ
  userCorrection : ℝ
  recencyDecayPerDay : ℝ

/-- The default weights (`DEFAULT_WEIGHTS`). -/
def DEFAULT_WEIGHTS : ImportanceWeights :=
  { retrieval := 0.3, citation := 0.5, userCorrection := -0.8, recencyDecayPerDay := 0.02 }

/-- Compute a 0-1 importance score from a record and weights
(`computeImportanceScore`); `now` models the `Date.now()` read. -/
noncomputable def computeImportanceScore (now : ℝ) (record : ImportanceRecord)
    (weights : ImportanceWeights) : ℝ :=
  let daysSinceUpdate := (now - record.lastUpdated) / (24 * 60 * 60 * 1000)
  let recencyFactor := max 0 (1 - weights.recencyDecayPerDay * daysSinceUpdate)
  let raw :=
    record.retrievalCount * weights.retrieval +
    record.citationCount * weights.citation +
    record.userCorrectionCount * weights.userCorrection
  let normalized := 1 / (1 + Real.exp (-raw))
  max 0 (min 1 (normalized * recencyFactor))

section ImportanceClaims

theorem sigmoid_pos (x : ℝ) : 0 < 1 / (1 + Real.exp (-x)) := by
  have := Real.exp_pos (-x)
  positivity

theorem sigmoid_lt_one (x : ℝ) : 1 / (1 + Real.exp (-x)) < 1 := by
  have h := Real.exp_pos (-x)
  rw [div_lt_one (by linarith)]
  linarith

theorem sigmoid_lt_sigmoid {x y : ℝ} (h : x < y) :
    1 / (1 + Real.exp (-x)) < 1 / (1 + Real.exp (-y)) := by
  have hexp : Real.exp (-y) < Real.exp (-x) := Real.exp_lt_exp.2 (by linarith)
  have hy : (0 : ℝ) < 1 + Real.exp (-y) := by have := Real.exp_pos (-y); linarith
  exact one_div_lt_one_div_of_lt hy (by linarith)

/-- Under the default weights, with a record whose `lastUpdated` is not in the
future and is less than 50 decay-days old, the clamp is inactive and the score
is the sigmoid of the weighted counts times the positive recency factor. -/
theorem computeImportanceScore_eq (now : ℝ) (r : ImportanceRecord)
    (h1 : r.lastUpdated ≤ now) (h2 : now - r.lastUpdated < 50 * 86400000) :
    computeImportanceScore now r DEFAULT_WEIGHTS
      = (1 / (1 + Real.exp (-(r.retrievalCount * 0.3 + r.citationCount * 0.5 +
          r.userCorrectionCount * (-0.8)))))
        * (1 - 0.02 * ((now - r.lastUpdated) / 86400000)) := by
  unfold computeImportanceScore DEFAULT_WEIGHTS
  have hdays : (0 : ℝ) ≤ (now - r.lastUpdated) / (24 * 60 * 60 * 1000) := by
    apply div_nonneg (by linarith) (by norm_num)
  have hdays2 : (now - r.lastUpdated) / (24 * 60 * 60 * 1000) < 50 := by
    rw [div_lt_iff₀ (by norm_num)]
    linarith
  have hrf : max 0 (1 - 0.02 * ((now - r.lastUpdated) / (24 * 60 * 60 * 1000)))
      = 1 - 0.02 * ((now - r.lastUpdated) / (24 * 60 * 60 * 1000)) := by
    apply max_eq_right
    nlinarith
  have hrfpos : 0 < 1 - 0.02 * ((now - r.lastUpdated) / (24 * 60 * 60 * 1000)) := by
    nlinarith
  have hrfle : 1 - 0.02 * ((now - r.lastUpdated) / (24 * 60 * 60 * 1000)) ≤ 1 := by
    nlinarith
  set x := r.retrievalCount * 0.3 + r.citationCount * 0.5 + r.userCorrectionCount * (-0.8)
    with hx
  have hs0 := sigmoid_pos x
  have hs1 := sigmoid_lt_one x
  simp only [hrf]
  have hp0 : 0 < (1 / (1 + Real.exp (-x)))
      * (1 - 0.02 * ((now - r.lastUpdated) / (24 * 60 * 60 * 1000))) :=
    mul_pos hs0 hrfpos
  have hp1 : (1 / (1 + Real.exp (-x)))
      * (1 - 0.02 * ((now - r.lastUpdated) / (24 * 60 * 60 * 1000))) < 1 := by
    nlinarith
  rw [min_eq_right (le_of_lt hp1), max_eq_right (le_of_lt hp0)]
  norm_num

/-- C4 counterexample: the claim asserts that increasing `citationCount` with
all other fields fixed strictly increases the score for every record, but a
record 100 days stale has recency factor zero, so the score stays `0`. -/
theorem computeImportanceScore_stale_counterexample :
    computeImportanceScore 8640000000 ⟨0, 1, 0, 0⟩ DEFAULT_WEIGHTS
      = computeImportanceScore 8640000000 ⟨0, 0, 0, 0⟩ DEFAULT_WEIGHTS := by
  have key : ∀ c : ℝ, computeImportanceScore 8640000000 ⟨0, c, 0, 0⟩ DEFAULT_WEIGHTS = 0 := by
    intro c
    unfold computeImportanceScore DEFAULT_WEIGHTS
    have hrf : max 0 (1 - (0.02 : ℝ) * ((8640000000 - 0) / (24 * 60 * 60 * 1000))) = 0 := by
      apply max_eq_left
      norm_num
    simp only
    rw [hrf, mul_zero]
    norm_num
  rw [key 1, key 0]

/-- C4 (amended): with the default weights, an all-zero record whose
`lastUpdated` equals the current time scores exactly `0.5`; and for every
record whose `lastUpdated` is not in the future and is less than 50 decay-days
old (so the recency factor is positive), increasing `citationCount` while
holding all other fields fixed strictly increases the score, while increasing
`userCorrectionCount` strictly decreases it. -/
theorem computeImportanceScore_spec :
    (∀ now : ℝ, computeImportanceScore now ⟨0, 0, 0, now⟩ DEFAULT_WEIGHTS = 0.5) ∧
    (∀ (now : ℝ) (r : ImportanceRecord) (c : ℝ), r.lastUpdated ≤ now →
      now - r.lastUpdated < 50 * 86400000 → r.citationCount < c →
      computeImportanceScore now r DEFAULT_WEIGHTS
        < computeImportanceScore now
            ⟨r.retrievalCount, c, r.userCorrectionCount, r.lastUpdated⟩ DEFAULT_WEIGHTS) ∧
    (∀ (now : ℝ) (r : ImportanceRecord) (u : ℝ), r.lastUpdated ≤ now →
      now - r.lastUpdated < 50 * 86400000 → r.userCorrectionCount < u →
      computeImportanceScore now
          ⟨r.retrievalCount, r.citationCount, u, r.lastUpdated⟩ DEFAULT_WEIGHTS
        < computeImportanceScore now r DEFAULT_WEIGHTS) := by
  refine ⟨?_, ?_, ?_⟩
  · intro now
    unfold computeImportanceScore DEFAULT_WEIGHTS
    simp only
    norm_num [Real.exp_zero]
  · intro now r c h1 h2 hc
    rw [computeImportanceScore_eq now r h1 h2,
      computeImportanceScore_eq now ⟨r.retrievalCount, c, r.userCorrectionCount,
        r.lastUpdated⟩ h1 h2]
    simp only
    have hrfpos : 0 < 1 - 0.02 * ((now - r.lastUpdated) / 86400000) := by
      have : (now - r.lastUpdated) / 86400000 < 50 := by
        rw [div_lt_iff₀ (by norm_num)]; linarith
      nlinarith
    apply mul_lt_mul_of_pos_right _ hrfpos
    apply sigmoid_lt_sigmoid
    nlinarith
  · intro now r u h1 h2 hu
    rw [computeImportanceScore_eq now r h1 h2,
      computeImportanceScore_eq now ⟨r.retrievalCount, r.citationCount, u,
        r.lastUpdated⟩ h1 h2]
    simp only
    have hrfpos : 0 < 1 - 0.02 * ((now - r.lastUpdated) / 86400000) := by
      have : (now - r.lastUpdated) / 86400000 < 50 := by
        rw [div_lt_iff₀ (by norm_num)]; linarith
      nlinarith
    apply mul_lt_mul_of_pos_right _ hrfpos
    apply sigmoid_lt_sigmoid
    nlinarith

/-- C4 witness: the amended monotonicity applied to the fresh all-zero record
with one extra citation at time `0`. -/
theorem computeImportanceScore_spec_witness :
    computeImportanceScore 0 ⟨0, 0, 0, 0⟩ DEFAULT_WEIGHTS
      < computeImportanceScore 0 ⟨0, 1, 0, 0⟩ DEFAULT_WEIGHTS :=
  computeImportanceScore_spec.2.1 0 ⟨0, 0, 0, 0⟩ 1 (by norm_num) (by norm_num) (by norm_num)

end ImportanceClaims

/-! Entity page codec (`src/memory/entity-templates.ts`).

A page is modelled as its list of lines: the source builds an array `lines`
and returns `lines.join("\n")`, and the parser immediately recovers the lines
with `content.split("\n")`; for line-wise newline-free content (which the
well-formedness hypotheses below guarantee) the two representations are in
exact correspondence, so the embedding works directly on the line lists.

`Date` formatting and parsing (`toISOString`, `toLocaleDateString`,
`new Date(string)`) are JavaScript runtime functions, not repository code;
they are threaded through as an explicit environment `JsDateEnv`. -/

/-- The JavaScript date runtime functions used by the codec. -/
structure JsDateEnv where
  toISOString : ℤ → String
  toLocaleDateString : ℤ → String
  parseDate : String → Option ℤ

/-- Relationship kinds (`src/memory/entity-types.ts`, `EntityRelationType`). -/
inductive EntityRelationType
  | works_with
  | knows
  | related_to
  | part_of
  | owns
  | created
  | manages
  | prefers
  | dislikes
  | custom
deriving DecidableEq, Repr

/-- The literal JavaScript string of a relationship kind. -/
def EntityRelationType.str : EntityRelationType → String
  | .works_with => "works_with"
  | .knows => "knows"
  | .related_to => "related_to"
  | .part_of => "part_of"
  | .owns => "owns"
  | .created => "created"
  | .manages => "manages"
  | .prefers => "prefers"
  | .dislikes => "dislikes"
  | .custom => "custom"

/-- Entity relationship (`src/memory/entity-types.ts`, `EntityRelationship`). -/
structure EntityRelationship where
  entity : String
  relation : EntityRelationType
  description : Option String
  establishedAt : ℤ
  sourceFactId : Option String
deriving DecidableEq, Repr

/-- Entity page (`src/memory/entity-types.ts`, `EntityPage`). -/
structure EntityPage where
  name : String
  displayName : String
  type : String
  description : Option String
  facts : List Fact
  relationships : List EntityRelationship
  lastUpdated : ℤ
  filePath : String
deriving DecidableEq, Repr

/-- The lower-case string of a fact type. -/
def FactType.str : FactType → String
  | .world => "world"
  | .experience => "experience"
  | .opinion => "opinion"
  | .summary => "summary"
  | .observation => "observation"

/-- The capitalised heading `type.charAt(0).toUpperCase() + type.slice(1)`
of a fact type. -/
def FactType.capitalized : FactType → String
  | .world => "World"
  | .experience => "Experience"
  | .opinion => "Opinion"
  | .summary => "Summary"
  | .observation => "Observation"

/-- JavaScript `String.prototype.trim` (the ASCII whitespace part). -/
def jsTrim (s : String) : String :=
  String.mk (((s.data.dropWhile isWsChar).reverse.dropWhile isWsChar).reverse)

/-- The group order used when rendering facts (`typeOrder`). -/
def typeOrder : List FactType := [.world, .experience, .opinion, .observation, .summary]

/-- The suffix the renderer appends to a fact content on its `- ` line:
the `(c=…)` confidence tag, the locale date range, and the `[source](…)`
link, in this order. -/
def factLineSuffix (env : JsDateEnv) (fact : Fact) : String :=
  (match fact.confidence with
   | some c => " (c=" ++ toFixed2 c ++ ")"
   | none => "") ++
  (match fact.dateRange with
   | some dr =>
     if 0 < dr.start then
       " (" ++ env.toLocaleDateString dr.start ++
       (match dr.endTime with
        | some e => if e = 0 then "" else " - " ++ env.toLocaleDateString e
        | none => "") ++ ")"
     else ""
   | none => "") ++
  (if fact.source = "" then "" else " [source](" ++ fact.source ++ ")")

/-- The rendered relationship line
`- **relation** [entity](./entity.md)` plus the optional description tail
(the separator string reproduces the source literal byte for byte). -/
def relLine (rel : EntityRelationship) : String :=
  "- **" ++ rel.relation.str ++ "** [" ++ rel.entity ++ "](./" ++ rel.entity ++ ".md)" ++
  (match rel.description with
   | some d => if d = "" then "" else " â€” " ++ d
   | none => "")

/-- Generate entity page Markdown content
(`src/memory/entity-templates.ts`, `generateEntityPageMarkdown`), as the list
of lines the source joins with `"\n"`. -/
def generateEntityPageMarkdown (env : JsDateEnv) (entity : EntityPage) : List String :=
  -- Header
  ["# " ++ entity.displayName, ""] ++
  -- Metadata (`entity.type` and `entity.description` are truthiness-checked)
  (if entity.type = "" then [] else ["**Type:** " ++ entity.type]) ++
  (match entity.description with
   | some d => if d = "" then [] else ["", d]
   | none => []) ++
  ["", "**Last Updated:** " ++ env.toISOString entity.lastUpdated, ""] ++
  -- Relationships section
  (if entity.relationships.isEmpty then []
   else ["## Relationships", ""] ++ entity.relationships.map relLine ++ [""]) ++
  -- Facts section, grouped by type in `typeOrder`
  (if entity.facts.isEmpty then ["## Facts", "", "_No facts recorded yet._", ""]
   else ["## Facts", ""] ++
     typeOrder.flatMap (fun t =>
       let facts := entity.facts.filter (fun f => decide (f.type = t))
       if facts.isEmpty then []
       else ["### " ++ t.capitalized, ""] ++
         facts.map (fun fact => "- " ++ fact.content ++ factLineSuffix env fact) ++ [""])) ++
  -- Evidence section (for opinions with evidence)
  (let opinionsWithEvidence := entity.facts.filter (fun f =>
     decide (f.type = .opinion) &&
       (!(f.supportingEvidence.getD []).isEmpty || !(f.contradictingEvidence.getD []).isEmpty))
   if opinionsWithEvidence.isEmpty then []
   else ["## Evidence", ""] ++ opinionsWithEvidence.flatMap (fun fact =>
     (match fact.supportingEvidence with
      | some l =>
        if l.isEmpty then []
        else ("**Supporting " ++ fact.id ++ ":**") :: l.map (fun evId => "- " ++ evId) ++ [""]
      | none => []) ++
     (match fact.contradictingEvidence with
      | some l =>
        if l.isEmpty then []
        else ("**Contradicting " ++ fact.id ++ ":**") :: l.map (fun evId => "- " ++ evId) ++ [""]
      | none => [])))

/-- Parsed fact (`parseEntityPageMarkdown` builds `Partial<Fact>` records and
casts the `type` string without validation, so the parsed type is kept as a
raw string; a `NaN` confidence from `parseFloat` is modelled as `none`). -/
structure ParsedFact where
  id : String
  type : String
  content : String
  entities : List String
  confidence : Option ℚ
  source : String
  timestamp : ℤ
deriving DecidableEq, Repr

/-- Parsed relationship (`relation as any` keeps the raw captured string). -/
structure ParsedRelationship where
  entity : String
  relation : String
  description : Option String
  establishedAt : ℤ
deriving DecidableEq, Repr

/-- The `Partial<EntityPage>` result of `parseEntityPageMarkdown` (with the
`lastUpdated` fallback already applied, as in the source's epilogue). -/
structure ParsedEntityPage where
  name : Option String
  displayName : Option String
  type : Option String
  description : Option String
  facts : List ParsedFact
  relationships : List ParsedRelationship
  lastUpdated : ℤ
  filePath : String
deriving DecidableEq, Repr

/-- Expect a literal character sequence, returning the remainder. -/
def expectChars : List Char → List Char → Option (List Char)
  | [], rest => some rest
  | _ :: _, [] => none
  | e :: es, c :: cs => if c = e then expectChars es cs else none

/-- Match of `/^- \*\*([^*]+)\*\* \[([^\]]+)\]\(\.\/([^)]+)\)(.*)$/` against a
whole line: each greedy character class runs to its terminator, which the
class excludes, so the regex match is this deterministic scan. -/
def matchRelLine (trimmed : String) : Option (String × String × String × String) :=
  match expectChars "- **".data trimmed.data with
  | none => none
  | some r1 =>
    let g1 := r1.takeWhile (· ≠ '*')
    if g1.isEmpty then none else
    match expectChars "** [".data (r1.dropWhile (· ≠ '*')) with
    | none => none
    | some r2 =>
      let g2 := r2.takeWhile (· ≠ ']')
      if g2.isEmpty then none else
      match expectChars "](./".data (r2.dropWhile (· ≠ ']')) with
      | none => none
      | some r3 =>
        let g3 := r3.takeWhile (· ≠ ')')
        if g3.isEmpty then none else
        match expectChars ")".data (r3.dropWhile (· ≠ ')')) with
        | none => none
        | some r4 => some (String.mk g1, String.mk g2, String.mk g3, String.mk r4)

/-- Characters of the regex class `[0-9.]`. -/
def isDigitDot (c : Char) : Bool := c.isDigit || c = '.'

/-- First match of `/\(c=([0-9.]+)\)/`, returning the capture. -/
def findConfCapture : List Char → Option (List Char)
  | [] => none
  | c :: rest =>
    match expectChars "(c=".data (c :: rest) with
    | some r =>
      let g := r.takeWhile isDigitDot
      if !g.isEmpty && (match r.dropWhile isDigitDot with | ')' :: _ => true | _ => false)
      then some g
      else findConfCapture rest
    | none => findConfCapture rest

/-- First match of `/\[source\]\(([^)]+)\)/`, returning the capture. -/
def findSourceCapture : List Char → Option (List Char)
  | [] => none
  | c :: rest =>
    match expectChars "[source](".data (c :: rest) with
    | some r =>
      let g := r.takeWhile (· ≠ ')')
      if !g.isEmpty && (match r.dropWhile (· ≠ ')') with | ')' :: _ => true | _ => false)
      then some g
      else findSourceCapture rest
    | none => findSourceCapture rest

/-- Value of a digit string. -/
def digitsToNat (l : List Char) : ℕ :=
  l.foldl (fun n c => 10 * n + (c.toNat - 48)) 0

/-- JavaScript `parseFloat` restricted to the strings the confidence capture
can produce (digits and dots; sign and exponent forms cannot occur): the
leading `digits[.digits]` prefix is converted, anything after a second dot is
ignored, and a string with no digits before the fraction ends is `NaN`,
modelled as `none`. -/
def jsParseFloat (s : String) : Option ℚ :=
  let ip := s.data.takeWhile Char.isDigit
  match s.data.dropWhile Char.isDigit with
  | '.' :: r2 =>
    let fp := r2.takeWhile Char.isDigit
    if ip.isEmpty && fp.isEmpty then none
    else some (mkRat (digitsToNat ip * 10 ^ fp.length + digitsToNat fp) (10 ^ fp.length))
  | _ => if ip.isEmpty then none else some (digitsToNat ip)

/-- Match of `/\/([^/]+)\.md$/` against the file path: the last path segment
without its `.md` suffix, provided a `/` precedes it. -/
def matchNameFromPath (filePath : String) : Option String :=
  if listStartsWith ".md".data.reverse filePath.data.reverse then
    let base := filePath.data.take (filePath.data.length - 3)
    let seg := (base.reverse.takeWhile (· ≠ '/')).reverse
    if seg.length < base.length && !seg.isEmpty then some (String.mk seg) else none
  else none

mutual

/-- JavaScript `s.replace(/\s+/g, "-")`: copy characters, replacing each
whitespace run by one hyphen. -/
def replaceWsRuns : List Char → List Char
  | [] => []
  | c :: rest => if isWsChar c then '-' :: replaceWsSkip rest else c :: replaceWsRuns rest

/-- Inside a whitespace run of `replaceWsRuns`. -/
def replaceWsSkip : List Char → List Char
  | [] => []
  | c :: rest => if isWsChar c then replaceWsSkip rest else c :: replaceWsRuns rest

end

/-- Parser loop state: the line index `i` (used in generated fact ids) plus
the accumulating `Partial<EntityPage>` fields. -/
structure ParseState where
  i : ℕ
  currentSection : Option String
  currentSubsection : Option String
  name : Option String
  displayName : Option String
  type : Option String
  description : Option String
  facts : List ParsedFact
  relationships : List ParsedRelationship
deriving DecidableEq, Repr

/-- The initial parser state. -/
def initParseState : ParseState :=
  { i := 0, currentSection := none, currentSubsection := none, name := none,
    displayName := none, type := none, description := none, facts := [],
    relationships := [] }

/-- One iteration of the `for` loop of `parseEntityPageMarkdown`: the branch
chain over a single line (the dead `factBuffer` variable of the source is
never read and is omitted). -/
def parseLine (filePath : String) (now : ℤ) (st : ParseState) (line : String) : ParseState :=
  let trimmed := jsTrim line
  -- Header
  if jsStartsWith line "# " then
    { st with
      displayName := some (jsDrop trimmed 2)
      name := some (match matchNameFromPath filePath with
        | some n => n
        | none => String.mk (replaceWsRuns (jsToLower (jsDrop trimmed 2)).data))
      i := st.i + 1 }
  -- Type
  else if jsStartsWith trimmed "**Type:**" then
    { st with type := some (jsTrim (jsDrop trimmed 9)), i := st.i + 1 }
  -- Description (between type and sections)
  else if st.currentSection = none && trimmed ≠ "" && !jsStartsWith trimmed "**"
      && !jsStartsWith trimmed "#" then
    { st with
      description := some (match st.description with
        | none => trimmed
        | some d => d ++ " " ++ trimmed)
      i := st.i + 1 }
  -- Section headers
  else if jsStartsWith line "## " then
    { st with
      currentSection := some (jsToLower (jsDrop trimmed 3))
      currentSubsection := none
      i := st.i + 1 }
  else if jsStartsWith line "### " then
    { st with currentSubsection := some (jsToLower (jsDrop trimmed 4)), i := st.i + 1 }
  -- Relationships
  else if st.currentSection = some "relationships" && jsStartsWith trimmed "- **" then
    match matchRelLine trimmed with
    | some (relation, _display, entityName, rest) =>
      { st with
        relationships := st.relationships ++
          [{ entity := entityName, relation := relation,
             description := if jsTrim rest = "" then none else some (jsTrim rest),
             establishedAt := now }]
        i := st.i + 1 }
    | none => { st with i := st.i + 1 }
  -- Facts
  else if st.currentSection = some "facts" && jsStartsWith trimmed "- " then
    let factContent := jsDrop trimmed 2
    let base : ParsedFact :=
      { id := "fact-" ++ toString now ++ "-" ++ toString st.i, type := "",
        content := factContent, entities := [], confidence := none,
        source := filePath, timestamp := now }
    let withType :=
      match findConfCapture factContent.data with
      | some g => { base with confidence := jsParseFloat (String.mk g), type := "opinion" }
      | none =>
        match st.currentSubsection with
        | some sub => { base with type := sub }
        | none => { base with type := "observation" }
    let withSource :=
      match findSourceCapture factContent.data with
      | some g => { withType with source := String.mk g }
      | none => withType
    { st with facts := st.facts ++ [withSource], i := st.i + 1 }
  else
    { st with i := st.i + 1 }

/-- First match of `/\*\*Last Updated:\*\* (.+)/` in the whole content:
since `.` does not cross newlines, this is the first line holding the marker
with at least one following character; the capture runs to the end of that
line. -/
def findMarkerCapture : List Char → Option (List Char)
  | [] => none
  | c :: rest =>
    match expectChars "**Last Updated:** ".data (c :: rest) with
    | some r => if r.isEmpty then findMarkerCapture rest else some r
    | none => findMarkerCapture rest

/-- Scan the lines for the last-updated marker. -/
def findLastUpdatedCapture : List String → Option String
  | [] => none
  | l :: rest =>
    match findMarkerCapture l.data with
    | some cap => some (String.mk cap)
    | none => findLastUpdatedCapture rest

/-- Parse entity page from Markdown content
(`src/memory/entity-templates.ts`, `parseEntityPageMarkdown`), over the line
list of the content. The epilogue resolves `lastUpdated`: an unparsable or
missing (or zero, since `0` is falsy) timestamp falls back to `Date.now()`. -/
def parseEntityPageMarkdown (env : JsDateEnv) (lines : List String) (filePath : String)
    (now : ℤ) : ParsedEntityPage :=
  let st := lines.foldl (parseLine filePath now) initParseState
  let fromDoc : Option ℤ :=
    match findLastUpdatedCapture lines with
    | some cap => env.parseDate cap
    | none => none
  { name := st.name, displayName := st.displayName, type := st.type,
    description := st.description, facts := st.facts,
    relationships := st.relationships,
    lastUpdated := match fromDoc with
      | some t => if t = 0 then now else t
      | none => now
    filePath := filePath }

/-- Decode the encoded page: the spec's `decode(encode(r))` composition,
parsing at time `now`. -/
def decodeEncoded (env : JsDateEnv) (page : EntityPage) (now : ℤ) : ParsedEntityPage :=
  parseEntityPageMarkdown env (generateEntityPageMarkdown env page) page.filePath now

/-- `s` contains none of the characters in `bad`. -/
def charsOk (bad : List Char) (s : String) : Bool :=
  s.data.all (fun c => !bad.contains c)

/-- `s` neither starts nor ends with whitespace (so `trim` keeps it intact). -/
def noEdgeWs (s : String) : Bool :=
  s.data.head?.all (fun c => !isWsChar c) && s.data.getLast?.all (fun c => !isWsChar c)

/-- Character-level conditions under which a rendered date string cannot be
mistaken for part of a confidence tag, a source link or the last-updated
marker: non-empty, and free of the tag and link delimiters. -/
def localeOk (s : String) : Bool :=
  !s.data.isEmpty && charsOk ['(', ')', '[', '*', 'c', '='] s

/-- Conditions under which one fact renders to a line the parser decodes
unambiguously: non-empty trim-stable content without `(` or `[`, a source
without link or tag delimiters, a confidence only on opinions and within
`[0, 1]`, and date strings rendering within the safe character set. -/
def WfFact (env : JsDateEnv) (f : Fact) : Prop :=
  f.content ≠ "" ∧ noEdgeWs f.content = true ∧ charsOk ['(', '['] f.content = true ∧
  charsOk ['(', ')', '[', '='] f.source = true ∧
  (f.type ≠ .opinion → f.confidence = none) ∧
  (∀ c, f.confidence = some c → 0 ≤ c ∧ c ≤ 1) ∧
  (∀ dr, f.dateRange = some dr →
    localeOk (env.toLocaleDateString dr.start) = true ∧
    (∀ e, dr.endTime = some e → localeOk (env.toLocaleDateString e) = true)) ∧
  (f.supportingEvidence.getD []).isEmpty = true ∧
  (f.contradictingEvidence.getD []).isEmpty = true

/-- Conditions under which one relationship renders to a line the parser
decodes unambiguously: a non-empty entity without capture terminators and a
non-empty trim-stable description when present. -/
def WfRel (rel : EntityRelationship) : Prop :=
  rel.entity ≠ "" ∧ charsOk [']', ')'] rel.entity = true ∧
  (∀ d, rel.description = some d → d ≠ "" ∧ noEdgeWs d = true)

/-- Conditions under which a page round-trips through the codec: the file
path encodes the entity name, the header fields are non-empty, trim-stable
and free of the characters that could fake a marker or a heading, at least
one relationship and one fact are present (so both sections render), every
fact and relationship is well-formed, and the date environment renders the
last-updated time as a non-empty star-free string it parses back. -/
def WfPage (env : JsDateEnv) (page : EntityPage) : Prop :=
  matchNameFromPath page.filePath = some page.name ∧
  page.displayName ≠ "" ∧ noEdgeWs page.displayName = true ∧
    charsOk ['*'] page.displayName = true ∧
  page.type ≠ "" ∧ noEdgeWs page.type = true ∧ charsOk ['*'] page.type = true ∧
  (∀ d, page.description = some d →
    d ≠ "" ∧ noEdgeWs d = true ∧ charsOk ['*', '#'] d = true) ∧
  page.relationships ≠ [] ∧ (∀ rel ∈ page.relationships, WfRel rel) ∧
  page.facts ≠ [] ∧ (∀ f ∈ page.facts, WfFact env f) ∧
  page.lastUpdated ≠ 0 ∧
  env.toISOString page.lastUpdated ≠ "" ∧
  charsOk ['*'] (env.toISOString page.lastUpdated) = true ∧
  env.parseDate (env.toISOString page.lastUpdated) = some page.lastUpdated

section RoundTripLemmas

lemma listStartsWith_append (p r : List Char) : listStartsWith p (p ++ r) = true := by
  induction p with
  | nil => rfl
  | cons c cs ih => simp [listStartsWith, ih]

lemma jsStartsWith_append (p s : String) : jsStartsWith (p ++ s) p = true := by
  rw [jsStartsWith, String.data_append]
  exact listStartsWith_append p.data s.data

lemma dropWhile_head_false {p : Char → Bool} :
    ∀ l : List Char, l.head?.all (fun c => !p c) = true → l.dropWhile p = l := by
  intro l h
  cases l with
  | nil => rfl
  | cons c cs =>
    simp only [List.head?_cons, Option.all_some, Bool.not_eq_true'] at h
    simp [List.dropWhile_cons, h]

lemma string_mk_data (s : String) : String.mk s.data = s := rfl

lemma jsTrim_eq_self (s : String) (h : noEdgeWs s = true) : jsTrim s = s := by
  rw [noEdgeWs, Bool.and_eq_true] at h
  rw [jsTrim, dropWhile_head_false s.data h.1]
  rw [dropWhile_head_false s.data.reverse (by rw [List.head?_reverse]; exact h.2)]
  rw [List.reverse_reverse]

lemma jsTrim_space_append (s : String) : jsTrim (" " ++ s) = jsTrim s := by
  have h : (" " ++ s).data = ' ' :: s.data := by rw [String.data_append]; rfl
  simp [jsTrim, h, List.dropWhile_cons, isWsChar]

lemma noEdgeWs_append (p s : String) (hp : p ≠ "")
    (hph : p.data.head?.all (fun c => !isWsChar c) = true) (hs : s ≠ "")
    (hse : noEdgeWs s = true) : noEdgeWs (p ++ s) = true := by
  rw [noEdgeWs, Bool.and_eq_true]
  rw [noEdgeWs, Bool.and_eq_true] at hse
  constructor
  · rw [String.data_append, List.head?_append_of_ne_nil]
    · exact hph
    · intro hnil
      exact hp (congrArg String.mk hnil)
  · rw [String.data_append, List.getLast?_append_of_ne_nil]
    · exact hse.2
    · intro hnil
      exact hs (congrArg String.mk hnil)

lemma takeWhile_append_of_all {p : Char → Bool} (xs : List Char)
    (h : ∀ x ∈ xs, p x = true) :
    ∀ ys, (xs ++ ys).takeWhile p = xs ++ ys.takeWhile p := by
  induction xs with
  | nil => intro ys; rfl
  | cons c cs ih =>
    intro ys
    simp only [List.cons_append, List.takeWhile_cons, h c (List.mem_cons_self ..)]
    rw [ih (fun x hx => h x (List.mem_cons_of_mem _ hx)) ys]
    simp

lemma dropWhile_append_of_all {p : Char → Bool} (xs : List Char)
    (h : ∀ x ∈ xs, p x = true) :
    ∀ ys, (xs ++ ys).dropWhile p = ys.dropWhile p := by
  induction xs with
  | nil => intro ys; rfl
  | cons c cs ih =>
    intro ys
    simp only [List.cons_append, List.dropWhile_cons, h c (List.mem_cons_self ..)]
    rw [ih (fun x hx => h x (List.mem_cons_of_mem _ hx)) ys]
    simp

lemma expectChars_self_append : ∀ (es r : List Char), expectChars es (es ++ r) = some r := by
  intro es
  induction es with
  | nil => intro r; rfl
  | cons e es ih => intro r; simp [expectChars, ih]

lemma expectChars_cons_ne (e c : Char) (es cs : List Char) (h : c ≠ e) :
    expectChars (e :: es) (c :: cs) = none := by
  simp [expectChars, h]

lemma charsOk_notMem (bad : List Char) (s : String) (h : charsOk bad s = true) :
    ∀ c ∈ s.data, c ∉ bad := by
  rw [charsOk, List.all_eq_true] at h
  intro c hc
  simpa using h c hc

lemma string_ne_of_data (s : String) (h : s.data ≠ []) : s ≠ "" :=
  fun he => h (by rw [he])

lemma data_ne_of_string (s : String) (h : s ≠ "") : s.data ≠ [] :=
  fun he => h (by rw [← string_mk_data s, he])

lemma head?_append_str (p s : String) (hp : p ≠ "") :
    (p ++ s).data.head? = p.data.head? := by
  rw [String.data_append]
  exact List.head?_append_of_ne_nil _ (data_ne_of_string p hp)

lemma getLast?_append_str (p s : String) (hs : s ≠ "") :
    (p ++ s).data.getLast? = s.data.getLast? := by
  rw [String.data_append]
  exact List.getLast?_append_of_ne_nil _ (data_ne_of_string s hs)

lemma noEdgeWs_of (s : String) (a b : Char) (ha : s.data.head? = some a)
    (hb : s.data.getLast? = some b) (h1 : isWsChar a = false) (h2 : isWsChar b = false) :
    noEdgeWs s = true := by
  rw [noEdgeWs, ha, hb]
  simp [h1, h2]

lemma noEdgeWs_head (s : String) (h : noEdgeWs s = true) :
    s.data.head?.all (fun c => !isWsChar c) = true := by
  rw [noEdgeWs, Bool.and_eq_true] at h
  exact h.1

lemma noEdgeWs_last (s : String) (h : noEdgeWs s = true) :
    s.data.getLast?.all (fun c => !isWsChar c) = true := by
  rw [noEdgeWs, Bool.and_eq_true] at h
  exact h.2

lemma jsStartsWith_char_false (s p : String) (a : Char) (as : List Char)
    (hp : p.data = a :: as) (hnotin : ∀ c ∈ s.data, c ≠ a) :
    jsStartsWith s p = false := by
  rw [jsStartsWith, hp]
  cases hs : s.data with
  | nil => rfl
  | cons c cs =>
    have hca : c ≠ a := hnotin c (hs ▸ List.mem_cons_self ..)
    simp [listStartsWith, decide_eq_false (Ne.symm hca)]

lemma findMarkerCapture_none_noStar :
    ∀ l : List Char, (∀ c ∈ l, c ≠ '*') → findMarkerCapture l = none := by
  intro l
  induction l with
  | nil => intro _; rfl
  | cons c rest ih =>
    intro h
    rw [findMarkerCapture,
      show ("**Last Updated:** ").data
        = '*' :: "*Last Updated:** ".data from by decide,
      expectChars_cons_ne _ _ _ _ (h c (List.mem_cons_self ..))]
    exact ih (fun x hx => h x (List.mem_cons_of_mem _ hx))

lemma findConfCapture_append_skip (xs : List Char) (h : ∀ c ∈ xs, c ≠ '(') :
    ∀ ys, findConfCapture (xs ++ ys) = findConfCapture ys := by
  induction xs with
  | nil => intro ys; rfl
  | cons c cs ih =>
    intro ys
    rw [List.cons_append, findConfCapture,
      show ("(c=").data = '(' :: "c=".data from by decide,
      expectChars_cons_ne _ _ _ _ (h c (List.mem_cons_self ..))]
    exact ih (fun x hx => h x (List.mem_cons_of_mem _ hx)) ys

lemma findSourceCapture_append_skip (xs : List Char) (h : ∀ c ∈ xs, c ≠ '[') :
    ∀ ys, findSourceCapture (xs ++ ys) = findSourceCapture ys := by
  induction xs with
  | nil => intro ys; rfl
  | cons c cs ih =>
    intro ys
    rw [List.cons_append, findSourceCapture,
      show ("[source](").data = '[' :: "source](".data from by decide,
      expectChars_cons_ne _ _ _ _ (h c (List.mem_cons_self ..))]
    exact ih (fun x hx => h x (List.mem_cons_of_mem _ hx)) ys

lemma findConfCapture_paren (ys : List Char)
    (h : ∀ c, ys.head? = some c → c ≠ 'c') :
    findConfCapture ('(' :: ys) = findConfCapture ys := by
  cases ys with
  | nil => rfl
  | cons c cs =>
    rw [findConfCapture,
      show ("(c=").data = '(' :: 'c' :: "=".data from by decide]
    rw [show expectChars ('(' :: 'c' :: "=".data) ('(' :: c :: cs)
        = expectChars ('c' :: "=".data) (c :: cs) from by simp [expectChars]]
    rw [expectChars_cons_ne _ _ _ _ (h c rfl)]

/-- The `toFixed(2)` rendering as a function of the rounded numerator. -/
def fix2str (n : ℤ) : String :=
  toString (n / 100) ++ "." ++ (if (n % 100).toNat < 10 then "0" else "") ++
    toString (n % 100).toNat

lemma toFixed2_eq_fix2str (q : ℚ) : toFixed2 q = fix2str (round (q * 100)) := by
  simp only [toFixed2, fix2str, toFixed2_num_eq_round]

set_option maxRecDepth 40000 in
lemma fix2str_props : ∀ m : ℕ, m ≤ 100 →
    (fix2str m).data ≠ [] ∧ (∀ c ∈ (fix2str m).data, isDigitDot c = true) ∧
    jsParseFloat (fix2str m) = some (mkRat m 100) ∧
    (∀ c ∈ (fix2str m).data, c ≠ '(' ∧ c ≠ '[' ∧ c ≠ '*' ∧ c ≠ ')') := by decide

lemma round_conf_bounds (c : ℚ) (h0 : 0 ≤ c) (h1 : c ≤ 1) :
    0 ≤ round (c * 100) ∧ round (c * 100) ≤ 100 := by
  rw [round_eq]
  constructor
  · exact Int.floor_nonneg.mpr (by linarith)
  · have hle : c * 100 + 1 / 2 ≤ 100 + 1 / 2 := by linarith
    have h2 : (⌊(100 + 1 / 2 : ℚ)⌋ : ℤ) = 100 := by
      rw [Int.floor_eq_iff]
      constructor
      · push_cast
        norm_num
      · push_cast
        norm_num
    exact le_trans (Int.floor_le_floor hle) (le_of_eq h2)

lemma jsParseFloat_toFixed2 (c : ℚ) (h0 : 0 ≤ c) (h1 : c ≤ 1) :
    jsParseFloat (toFixed2 c) = some ((round (c * 100) : ℚ) / 100) ∧
    (toFixed2 c).data ≠ [] ∧ (∀ ch ∈ (toFixed2 c).data, isDigitDot ch = true) ∧
    (∀ ch ∈ (toFixed2 c).data, ch ≠ '(' ∧ ch ≠ '[' ∧ ch ≠ '*' ∧ ch ≠ ')') := by
  obtain ⟨hlo, hhi⟩ := round_conf_bounds c h0 h1
  have hn : ((round (c * 100)).toNat : ℤ) = round (c * 100) := Int.toNat_of_nonneg hlo
  have hm : (round (c * 100)).toNat ≤ 100 := by omega
  have hp := fix2str_props (round (c * 100)).toNat hm
  rw [toFixed2_eq_fix2str, ← hn]
  refine ⟨?_, hp.1, hp.2.1, hp.2.2.2⟩
  rw [hp.2.2.1, Rat.mkRat_eq_div]
  norm_num

lemma findConfCapture_paren_c (ys : List Char)
    (h : ∀ c, ys.head? = some c → c ≠ '=') :
    findConfCapture ('(' :: 'c' :: ys) = findConfCapture ('c' :: ys) := by
  cases ys with
  | nil => rfl
  | cons c cs =>
    rw [findConfCapture,
      show ("(c=").data = '(' :: 'c' :: '=' :: [] from by decide]
    rw [show expectChars ('(' :: 'c' :: '=' :: []) ('(' :: 'c' :: c :: cs)
        = expectChars ('=' :: []) (c :: cs) from by simp [expectChars]]
    rw [expectChars_cons_ne _ _ _ _ (h c rfl)]

/-- `true` when the pattern is guaranteed to mismatch within the given
concrete prefix, whatever follows it. -/
def lswProbe : List Char → List Char → Bool
  | [], _ => false
  | _ :: _, [] => false
  | c :: cs, h :: hs => if c = h then lswProbe cs hs else true

lemma listStartsWith_of_probe :
    ∀ p l : List Char, lswProbe p l = true →
      ∀ tail, listStartsWith p (l ++ tail) = false := by
  intro p
  induction p with
  | nil => intro l h tail; simp [lswProbe] at h
  | cons c cs ih =>
    intro l h tail
    cases l with
    | nil => simp [lswProbe] at h
    | cons a as =>
      by_cases hca : c = a
      · rw [lswProbe, if_pos hca] at h
        subst hca
        simp [listStartsWith, ih as h tail]
      · simp [listStartsWith, decide_eq_false hca]

lemma listStartsWith_append_of :
    ∀ p l : List Char, listStartsWith p l = true →
      ∀ tail, listStartsWith p (l ++ tail) = true := by
  intro p
  induction p with
  | nil => intro l _ tail; rfl
  | cons c cs ih =>
    intro l h tail
    cases l with
    | nil => simp [listStartsWith] at h
    | cons a as =>
      rw [listStartsWith, Bool.and_eq_true] at h
      simp [listStartsWith, h.1, ih as h.2 tail]

lemma jsStartsWith_lit_false (lit s pre : String) (h : lswProbe pre.data lit.data = true) :
    jsStartsWith (lit ++ s) pre = false := by
  rw [jsStartsWith, String.data_append]
  exact listStartsWith_of_probe pre.data lit.data h s.data

lemma jsStartsWith_lit_true (lit s pre : String)
    (h : listStartsWith pre.data lit.data = true) :
    jsStartsWith (lit ++ s) pre = true := by
  rw [jsStartsWith, String.data_append]
  exact listStartsWith_append_of pre.data lit.data h s.data

lemma parseLine_header (fp : String) (now : ℤ) (st : ParseState) (dn nm : String)
    (hdn : dn ≠ "") (hedge : noEdgeWs dn = true)
    (hname : matchNameFromPath fp = some nm) :
    parseLine fp now st ("# " ++ dn) =
      { st with displayName := some dn, name := some nm, i := st.i + 1 } := by
  have hb1 : jsStartsWith ("# " ++ dn) "# " = true := jsStartsWith_append _ _
  have htrim : jsTrim ("# " ++ dn) = "# " ++ dn :=
    jsTrim_eq_self _ (noEdgeWs_append "# " dn (by decide) (by decide) hdn hedge)
  have hdrop : jsDrop ("# " ++ dn) 2 = dn := by
    rw [jsDrop, show ("# " ++ dn).data = '#' :: ' ' :: dn.data from by
      rw [String.data_append, show "# ".data = ['#', ' '] from by decide]
      rfl]
    exact string_mk_data dn
  simp only [parseLine, hb1, if_true, htrim, hdrop, hname]

lemma parseLine_empty (fp : String) (now : ℤ) (st : ParseState) :
    parseLine fp now st "" = { st with i := st.i + 1 } := by
  simp only [parseLine]
  norm_num [jsStartsWith, listStartsWith, jsTrim, isWsChar]

lemma parseLine_type (fp : String) (now : ℤ) (st : ParseState) (ty : String)
    (hty : ty ≠ "") (hedge : noEdgeWs ty = true) :
    parseLine fp now st ("**Type:** " ++ ty) =
      { st with type := some ty, i := st.i + 1 } := by
  have hb1 : jsStartsWith ("**Type:** " ++ ty) "# " = false :=
    jsStartsWith_lit_false "**Type:** " ty "# " (by decide)
  have htrim : jsTrim ("**Type:** " ++ ty) = "**Type:** " ++ ty :=
    jsTrim_eq_self _ (noEdgeWs_append "**Type:** " ty (by decide) (by decide) hty hedge)
  have hb2 : jsStartsWith ("**Type:** " ++ ty) "**Type:**" = true :=
    jsStartsWith_lit_true "**Type:** " ty "**Type:**" (by decide)
  have hdrop : jsDrop ("**Type:** " ++ ty) 9 = " " ++ ty := by
    rw [jsDrop, show ("**Type:** " ++ ty).data
        = '*' :: '*' :: 'T' :: 'y' :: 'p' :: 'e' :: ':' :: '*' :: '*' :: ' ' :: ty.data from by
      rw [String.data_append,
        show "**Type:** ".data = ['*', '*', 'T', 'y', 'p', 'e', ':', '*', '*', ' '] from by
          decide]
      rfl]
    rfl
  have htrim2 : jsTrim (" " ++ ty) = ty := by
    rw [jsTrim_space_append]
    exact jsTrim_eq_self ty hedge
  simp only [parseLine, hb1, Bool.false_eq_true, if_false, htrim, hb2, if_true, hdrop, htrim2]

lemma parseLine_desc (fp : String) (now : ℤ) (st : ParseState) (d : String)
    (hsec : st.currentSection = none) (hd : d ≠ "") (hedge : noEdgeWs d = true)
    (hch : charsOk ['*', '#'] d = true) :
    parseLine fp now st d =
      { st with
        description := some (match st.description with
          | none => d
          | some d0 => d0 ++ " " ++ d),
        i := st.i + 1 } := by
  have hnm := charsOk_notMem _ _ hch
  have hstar : ∀ c ∈ d.data, c ≠ '*' := fun c hc he => hnm c hc (by rw [he]; simp)
  have hhash : ∀ c ∈ d.data, c ≠ '#' := fun c hc he => hnm c hc (by rw [he]; simp)
  have hb1 : jsStartsWith d "# " = false :=
    jsStartsWith_char_false d "# " '#' [' '] (by decide) hhash
  have htrim : jsTrim d = d := jsTrim_eq_self d hedge
  have hb2 : jsStartsWith d "**Type:**" = false :=
    jsStartsWith_char_false d "**Type:**" '*' "*Type:**".data (by decide) hstar
  have hb2s : jsStartsWith d "**" = false :=
    jsStartsWith_char_false d "**" '*' ['*'] (by decide) hstar
  have hb2h : jsStartsWith d "#" = false :=
    jsStartsWith_char_false d "#" '#' [] (by decide) hhash
  have hb4 : jsStartsWith d "## " = false :=
    jsStartsWith_char_false d "## " '#' ['#', ' '] (by decide) hhash
  have hb5 : jsStartsWith d "### " = false :=
    jsStartsWith_char_false d "### " '#' ['#', '#', ' '] (by decide) hhash
  have hd' : decide (d ≠ "") = true := decide_eq_true hd
  simp only [parseLine, hb1, Bool.false_eq_true, if_false, htrim, hb2, hsec, hb2s, hb2h,
    hb4, hb5, hd', if_true]
  simp

lemma parseLine_marker (fp : String) (now : ℤ) (st : ParseState) (iso : String)
    (hsec : st.currentSection = none) (hiso : iso ≠ "") (hedge : noEdgeWs iso = true) :
    parseLine fp now st ("**Last Updated:** " ++ iso) = { st with i := st.i + 1 } := by
  have hb1 : jsStartsWith ("**Last Updated:** " ++ iso) "# " = false :=
    jsStartsWith_lit_false "**Last Updated:** " iso "# " (by decide)
  have htrim : jsTrim ("**Last Updated:** " ++ iso) = "**Last Updated:** " ++ iso :=
    jsTrim_eq_self _
      (noEdgeWs_append "**Last Updated:** " iso (by decide) (by decide) hiso hedge)
  have hb2 : jsStartsWith ("**Last Updated:** " ++ iso) "**Type:**" = false :=
    jsStartsWith_lit_false "**Last Updated:** " iso "**Type:**" (by decide)
  have hb2s : jsStartsWith ("**Last Updated:** " ++ iso) "**" = true :=
    jsStartsWith_lit_true "**Last Updated:** " iso "**" (by decide)
  have hb4 : jsStartsWith ("**Last Updated:** " ++ iso) "## " = false :=
    jsStartsWith_lit_false "**Last Updated:** " iso "## " (by decide)
  have hb5 : jsStartsWith ("**Last Updated:** " ++ iso) "### " = false :=
    jsStartsWith_lit_false "**Last Updated:** " iso "### " (by decide)
  have hb6 : jsStartsWith ("**Last Updated:** " ++ iso) "- **" = false :=
    jsStartsWith_lit_false "**Last Updated:** " iso "- **" (by decide)
  have hb7 : jsStartsWith ("**Last Updated:** " ++ iso) "- " = false :=
    jsStartsWith_lit_false "**Last Updated:** " iso "- " (by decide)
  simp only [parseLine, hb1, Bool.false_eq_true, if_false, htrim, hb2, hsec, hb2s,
    Bool.not_true, Bool.and_false, Bool.false_and, hb4, hb5, hb6, hb7, Bool.and_true]

lemma parseLine_section (fp : String) (now : ℤ) (st : ParseState) (sec : String)
    (hsec : sec ≠ "") (hedge : noEdgeWs sec = true) :
    parseLine fp now st ("## " ++ sec) =
      { st with
        currentSection := some (jsToLower sec)
        currentSubsection := none
        i := st.i + 1 } := by
  have hb1 : jsStartsWith ("## " ++ sec) "# " = false :=
    jsStartsWith_lit_false "## " sec "# " (by decide)
  have htrim : jsTrim ("## " ++ sec) = "## " ++ sec :=
    jsTrim_eq_self _ (noEdgeWs_append "## " sec (by decide) (by decide) hsec hedge)
  have hb2 : jsStartsWith ("## " ++ sec) "**Type:**" = false :=
    jsStartsWith_lit_false "## " sec "**Type:**" (by decide)
  have hb2h : jsStartsWith ("## " ++ sec) "#" = true :=
    jsStartsWith_lit_true "## " sec "#" (by decide)
  have hb4 : jsStartsWith ("## " ++ sec) "## " = true :=
    jsStartsWith_lit_true "## " sec "## " (by decide)
  have hdrop : jsDrop ("## " ++ sec) 3 = sec := by
    rw [jsDrop, show ("## " ++ sec).data = '#' :: '#' :: ' ' :: sec.data from by
      rw [String.data_append, show "## ".data = ['#', '#', ' '] from by decide]
      rfl]
    exact string_mk_data sec
  simp only [parseLine, hb1, Bool.false_eq_true, if_false, htrim, hb2, hb2h,
    Bool.not_true, Bool.and_false, Bool.false_and, hb4, if_true, hdrop]

lemma parseLine_subsection (fp : String) (now : ℤ) (st : ParseState) (sub : String)
    (hsub : sub ≠ "") (hedge : noEdgeWs sub = true) :
    parseLine fp now st ("### " ++ sub) =
      { st with currentSubsection := some (jsToLower sub), i := st.i + 1 } := by
  have hb1 : jsStartsWith ("### " ++ sub) "# " = false :=
    jsStartsWith_lit_false "### " sub "# " (by decide)
  have htrim : jsTrim ("### " ++ sub) = "### " ++ sub :=
    jsTrim_eq_self _ (noEdgeWs_append "### " sub (by decide) (by decide) hsub hedge)
  have hb2 : jsStartsWith ("### " ++ sub) "**Type:**" = false :=
    jsStartsWith_lit_false "### " sub "**Type:**" (by decide)
  have hb2h : jsStartsWith ("### " ++ sub) "#" = true :=
    jsStartsWith_lit_true "### " sub "#" (by decide)
  have hb4 : jsStartsWith ("### " ++ sub) "## " = false :=
    jsStartsWith_lit_false "### " sub "## " (by decide)
  have hb5 : jsStartsWith ("### " ++ sub) "### " = true :=
    jsStartsWith_lit_true "### " sub "### " (by decide)
  have hdrop : jsDrop ("### " ++ sub) 4 = sub := by
    rw [jsDrop, show ("### " ++ sub).data = '#' :: '#' :: '#' :: ' ' :: sub.data from by
      rw [String.data_append, show "### ".data = ['#', '#', '#', ' '] from by decide]
      rfl]
    exact string_mk_data sub
  simp only [parseLine, hb1, Bool.false_eq_true, if_false, htrim, hb2, hb2h,
    Bool.not_true, Bool.and_false, Bool.false_and, hb4, hb5, if_true, hdrop]

end RoundTripLemmas

/-- A concrete date runtime for the round-trip instances: time `t` renders as
`T<t>`, and parsing recognises the one rendering that occurs. -/
def envCex : JsDateEnv :=
  { toISOString := fun t => "T" ++ toString t
    toLocaleDateString := fun t => toString t
    parseDate := fun s => if s = "T100" then some 100 else none }

/-- A fact of the round-trip counterexample page. -/
def mkFactCex (i : String) (t : FactType) (c : String) (conf : Option ℚ) (src : String) :
    Fact :=
  { id := i, type := t, content := c, entities := ["Peter"], confidence := conf,
    source := src, timestamp := 5, dateRange := none, supportingEvidence := none,
    contradictingEvidence := none }

/-- The round-trip counterexample page: facts spanning all five fact types,
one symmetric relationship (`works_with`) with a description and one
asymmetric relationship (`manages`). -/
def pageCex : EntityPage :=
  { name := "test", displayName := "Test", type := "person",
    description := some "desc",
    facts := [
      mkFactCex "f1" .world "w" none "s1",
      mkFactCex "f2" .experience "e" none "s2",
      mkFactCex "f3" .opinion "o" (some (mkRat 7 10)) "s3",
      mkFactCex "f4" .summary "s" none "s4",
      mkFactCex "f5" .observation "b" none "s5" ],
    relationships := [
      { entity := "bob", relation := .works_with, description := some "colleague",
        establishedAt := 7, sourceFactId := none },
      { entity := "carol", relation := .manages, description := none,
        establishedAt := 8, sourceFactId := none } ],
    lastUpdated := 100, filePath := "bank/entities/test.md" }

set_option maxRecDepth 100000 in
/-- C1: counterexample to the lossless round-trip. The page has facts of all
five types and a symmetric and an asymmetric relationship, yet decoding the
encoded page (at parse time 999) does not reproduce the modeled fields: each
relationship entity comes back with a spurious `.md` suffix (the parser
destructures the link-target capture instead of the label capture), the
relationship description comes back with the renderer's mojibake separator
prefix, and no fact keeps its id, entities or timestamp (ids are regenerated
as `fact-<now>-<line>`, entities are reset to `[]`, timestamps become the
parse time). -/
theorem parseEntityPageMarkdown_roundtrip_counterexample :
    pageCex.facts.map (fun f => f.type)
        = [.world, .experience, .opinion, .summary, .observation] ∧
    pageCex.relationships.map (fun r => (r.relation, r.entity, r.description))
        = [(.works_with, "bob", some "colleague"), (.manages, "carol", none)] ∧
    (parseEntityPageMarkdown envCex (generateEntityPageMarkdown envCex pageCex)
        "bank/entities/test.md" 999).relationships.map (fun r => r.entity)
      = ["bob.md", "carol.md"] ∧
    (parseEntityPageMarkdown envCex (generateEntityPageMarkdown envCex pageCex)
        "bank/entities/test.md" 999).relationships.map (fun r => r.description)
      = [some ("â€” colleague"), none] ∧
    (∀ pf ∈ (parseEntityPageMarkdown envCex (generateEntityPageMarkdown envCex pageCex)
        "bank/entities/test.md" 999).facts,
      pf.id ∉ pageCex.facts.map (fun f => f.id) ∧ pf.entities = [] ∧ pf.timestamp = 999) :=
  ⟨by decide, by decide, by decide, by decide, by decide⟩

/-! Entity manager (`src/memory/entity-manager.ts`, provided in the sources as
an unnamed file). The `bank/entities/` directory is modelled as an association
list from file name (relative path) to file content (the content being the
line list the codec produces); `fs.access` is lookup, `fs.writeFile` is
insert-or-replace. -/

/-- The entities directory: file path to file lines. -/
abbrev EntityDir := List (String × List String)

/-- Entity creation options (`src/memory/entity-types.ts`,
`EntityCreateOptions`). -/
structure EntityCreateOptions where
  displayName : Option String
  type : Option String
  description : Option String

/-- Normalize entity name to a slug (`EntityManager.normalizeEntityName`):
lower-case, replace every character outside `[a-z0-9-]` by `-`, collapse `-`
runs, trim one leading and one trailing `-` (the regex `/^-|-$/g`). -/
def isSlugChar (c : Char) : Bool :=
  (97 ≤ c.toNat && c.toNat ≤ 122) || (48 ≤ c.toNat && c.toNat ≤ 57) || c = '-'

/-- Collapse runs of hyphens to a single hyphen (the `-+` to `-` replace). -/
def collapseHyphens : List Char → List Char
  | [] => []
  | [c] => [c]
  | c :: d :: rest =>
    if c = '-' && d = '-' then collapseHyphens (d :: rest)
    else c :: collapseHyphens (d :: rest)

/-- Remove one leading and one trailing hyphen (`replace(/^-|-$/g, "")`;
after collapsing there is at most one of each). -/
def trimEdgeHyphens (l : List Char) : List Char :=
  let l1 := match l with
    | '-' :: rest => rest
    | other => other
  match l1.getLast? with
  | some '-' => l1.dropLast
  | _ => l1

/-- `EntityManager.normalizeEntityName` (also `getEntityFilePath`'s
sanitisation, which is the same computation). -/
def normalizeEntityName (name : String) : String :=
  String.mk (trimEdgeHyphens (collapseHyphens
    ((jsToLower name).data.map (fun c => if isSlugChar c then c else '-'))))

/-- The file path `bank/entities/<sanitized>.md` of an entity
(`EntityManager.getEntityFilePath`, relative to the workspace). -/
def getEntityFilePath (name : String) : String :=
  "bank/entities/" ++ normalizeEntityName name ++ ".md"

/-- The record `createEntity` builds in its success path (factored out so
that theorems can name it); `options.displayName || name` and
`options.type || "unknown"` read empty strings as falsy. -/
def createdEntity (name : String) (options : EntityCreateOptions) (now : ℤ) : EntityPage :=
  { name := normalizeEntityName name
    displayName := match options.displayName with
      | some d => if d = "" then name else d
      | none => name
    type := match options.type with
      | some t => if t = "" then "unknown" else t
      | none => "unknown"
    description := options.description
    facts := []
    relationships := []
    lastUpdated := now
    filePath := "bank/entities/" ++ normalizeEntityName name ++ ".md" }

/-- Create a new entity (`EntityManager.createEntity`): fails when the file
for the normalized name exists (`fs.access` succeeds), otherwise writes the
rendered page. The JavaScript error message is reproduced; the pair returns
the result together with the directory state after the call. -/
def createEntity (env : JsDateEnv) (dir : EntityDir) (name : String)
    (options : EntityCreateOptions) (now : ℤ) :
    Except String EntityPage × EntityDir :=
  match dir.find? (fun f => f.1 = getEntityFilePath (normalizeEntityName name)) with
  | some _ =>
    (Except.error ("Entity \"" ++ name ++ "\" already exists"), dir)
  | none =>
    (Except.ok (createdEntity name options now),
     dir ++ [(getEntityFilePath (normalizeEntityName name),
       generateEntityPageMarkdown env (createdEntity name options now))])

section EntityStoreClaims

/-- C8: creating an entity succeeds when no record exists for the normalized
name, and an immediately following `createEntity` with any
normalization-equivalent name (for example a differently-cased variant) fails
with the `already exists` error and leaves the directory — in particular the
just-created record — unchanged. -/
theorem createEntity_duplicate (env env2 : JsDateEnv) (dir : EntityDir)
    (name name2 : String) (options options2 : EntityCreateOptions) (now now2 : ℤ)
    (hfresh : ∀ f ∈ dir, f.1 ≠ getEntityFilePath (normalizeEntityName name))
    (hequiv : normalizeEntityName name2 = normalizeEntityName name) :
    ∃ entity : EntityPage,
      (createEntity env dir name options now).1 = Except.ok entity ∧
      entity.name = normalizeEntityName name ∧
      (let dir1 := (createEntity env dir name options now).2
       createEntity env2 dir1 name2 options2 now2
         = (Except.error ("Entity \"" ++ name2 ++ "\" already exists"), dir1)) := by
  have hfind1 : dir.find? (fun f => f.1 = getEntityFilePath (normalizeEntityName name)) = none := by
    rw [List.find?_eq_none]
    intro f hf
    simpa using hfresh f hf
  refine ⟨createdEntity name options now, ?_, rfl, ?_⟩
  · unfold createEntity
    rw [hfind1]
  · show createEntity env2 (createEntity env dir name options now).2 name2 options2 now2 = _
    unfold createEntity
    rw [hfind1]
    simp only
    rw [show getEntityFilePath (normalizeEntityName name2)
        = getEntityFilePath (normalizeEntityName name) by rw [hequiv]]
    rw [List.find?_append, hfind1]
    simp [List.find?_cons]

end EntityStoreClaims

/-- A concrete date environment for witnesses and counterexamples. -/
def witnessEnv : JsDateEnv :=
  { toISOString := fun t => "iso-" ++ toString t
    toLocaleDateString := fun t => toString t
    parseDate := fun _ => none }

/-- C8 witness: the duplicate-create theorem applied to an empty store with
the names `Peter` and `PETER`. -/
theorem createEntity_duplicate_witness :
    ∃ entity : EntityPage,
      (createEntity witnessEnv [] "Peter" ⟨none, none, none⟩ 0).1 = Except.ok entity ∧
      entity.name = normalizeEntityName "Peter" ∧
      (let dir1 := (createEntity witnessEnv [] "Peter" ⟨none, none, none⟩ 0).2
       createEntity witnessEnv dir1 "PETER" ⟨none, none, none⟩ 1
         = (Except.error ("Entity \"PETER\" already exists"), dir1)) :=
  createEntity_duplicate witnessEnv witnessEnv [] "Peter" "PETER"
    ⟨none, none, none⟩ ⟨none, none, none⟩ 0 1
    (fun f hf => absurd hf (List.not_mem_nil f)) (by decide)

/-! Entity queries (`EntityManager.queryEntities`). `listEntities` followed by
`getEntity` per summary loads the stored pages; the loaded collection is
modelled as the list of entity pages in listing order. -/

/-- Query options (`src/memory/entity-types.ts`, `EntityQueryOptions`);
`Date` bounds are their millisecond values, and the source field `until` is
called `untilDate` here because `until` is a Lean keyword. -/
structure EntityQueryOptions where
  factType : Option FactType
  since : Option ℤ
  untilDate : Option ℤ
  relationType : Option EntityRelationType
  limit : Option ℕ

/-- The time of a fact used by the date filter:
`f.dateRange?.start || f.timestamp` (a zero `start` is falsy). -/
def factTime (f : Fact) : ℤ :=
  match f.dateRange with
  | some dr => if dr.start = 0 then f.timestamp else dr.start
  | none => f.timestamp

/-- The filter chain of `queryEntities` for one entity: fact type, date range
(`options.since?.getTime() || 0` and `options.until?.getTime() || Date.now()`,
where an epoch `until` is falsy and becomes `Date.now()`), and relationship
kind; the date fallback keeps the record when `entity.lastUpdated ≥ sinceTs`
(the upper bound is not applied to `lastUpdated`). -/
def matchesFilters (now : ℤ) (options : EntityQueryOptions) (entity : EntityPage) : Bool :=
  (match options.factType with
   | some ft => entity.facts.any (fun f => decide (f.type = ft))
   | none => true) &&
  (if options.since.isSome || options.untilDate.isSome then
    let sinceTs : ℤ := match options.since with
      | some s => s
      | none => 0
    let untilTs : ℤ := match options.untilDate with
      | some u => if u = 0 then now else u
      | none => now
    (entity.facts.any (fun f =>
        decide (sinceTs ≤ factTime f) && decide (factTime f ≤ untilTs))) ||
      decide (sinceTs ≤ entity.lastUpdated)
   else true) &&
  (match options.relationType with
   | some rt => entity.relationships.any (fun r => decide (r.relation = rt))
   | none => true)

/-- The accumulation loop of `queryEntities`, with the
`if (options.limit && results.length >= options.limit) break` check (a zero
limit is falsy and never truncates). -/
def queryLoop (now : ℤ) (options : EntityQueryOptions) :
    List EntityPage → List EntityPage → List EntityPage
  | [], results => results
  | e :: rest, results =>
    if matchesFilters now options e then
      match options.limit with
      | some l =>
        if l ≠ 0 && (results ++ [e]).length ≥ l then results ++ [e]
        else queryLoop now options rest (results ++ [e])
      | none => queryLoop now options rest (results ++ [e])
    else queryLoop now options rest results

/-- Query entities with filters (`EntityManager.queryEntities`). -/
def queryEntities (now : ℤ) (options : EntityQueryOptions)
    (entities : List EntityPage) : List EntityPage :=
  queryLoop now options entities []

/-- The record predicate as the claim states it: for the date filter, a
record with no fact in range must have its own `lastUpdated` inside
`[since, until]` (both bounds). -/
def claimMatches (now : ℤ) (options : EntityQueryOptions) (entity : EntityPage) : Bool :=
  (match options.factType with
   | some ft => entity.facts.any (fun f => decide (f.type = ft))
   | none => true) &&
  (if options.since.isSome || options.untilDate.isSome then
    let sinceTs : ℤ := match options.since with
      | some s => s
      | none => 0
    let untilTs : ℤ := match options.untilDate with
      | some u => if u = 0 then now else u
      | none => now
    (entity.facts.any (fun f =>
        decide (sinceTs ≤ factTime f) && decide (factTime f ≤ untilTs))) ||
      (decide (sinceTs ≤ entity.lastUpdated) && decide (entity.lastUpdated ≤ untilTs))
   else true) &&
  (match options.relationType with
   | some rt => entity.relationships.any (fun r => decide (r.relation = rt))
   | none => true)

/-- The limit truncation: `take limit` when the limit is a nonzero number. -/
def applyLimit (limit : Option ℕ) (l : List EntityPage) : List EntityPage :=
  match limit with
  | some n => if n ≠ 0 then l.take n else l
  | none => l

section QueryClaims

/-- C6 counterexample: an entity with no facts whose `lastUpdated` lies above
the `until` bound is returned by `queryEntities` (the code only compares
`lastUpdated` against `since`), while the claim requires `lastUpdated` inside
`[since, until]` and so excludes it. -/
theorem queryEntities_until_counterexample :
    (queryEntities 1000
        { factType := none, since := some 10, untilDate := some 50,
          relationType := none, limit := none }
        [{ name := "stale", displayName := "Stale", type := "concept",
           description := none, facts := [], relationships := [],
           lastUpdated := 100, filePath := "bank/entities/stale.md" }]
      = [{ name := "stale", displayName := "Stale", type := "concept",
           description := none, facts := [], relationships := [],
           lastUpdated := 100, filePath := "bank/entities/stale.md" }]) ∧
    claimMatches 1000
        { factType := none, since := some 10, untilDate := some 50,
          relationType := none, limit := none }
        { name := "stale", displayName := "Stale", type := "concept",
          description := none, facts := [], relationships := [],
          lastUpdated := 100, filePath := "bank/entities/stale.md" } = false := by
  constructor
  · decide
  · decide

theorem queryLoop_eq (now : ℤ) (options : EntityQueryOptions) :
    ∀ (es acc : List EntityPage),
      (∀ l, options.limit = some l → l ≠ 0 → acc.length < l) →
      queryLoop now options es acc
        = acc ++ (match options.limit with
          | some l =>
            if l ≠ 0 then (es.filter (matchesFilters now options)).take (l - acc.length)
            else es.filter (matchesFilters now options)
          | none => es.filter (matchesFilters now options)) := by
  intro es
  induction es with
  | nil =>
    intro acc hacc
    cases hl : options.limit with
    | none => simp [queryLoop]
    | some l => by_cases h0 : l = 0 <;> simp [queryLoop, h0]
  | cons e rest ih =>
    intro acc hacc
    by_cases hm : matchesFilters now options e
    · rw [queryLoop, if_pos hm]
      cases hl : options.limit with
      | none =>
        dsimp only
        rw [ih (acc ++ [e]) (by simp [hl]), hl]
        dsimp only
        simp [List.filter_cons, hm]
      | some l =>
        dsimp only
        by_cases h0 : l = 0
        · subst h0
          rw [if_neg (by simp)]
          rw [ih (acc ++ [e]) (by intro l' hl' h0'; rw [hl] at hl'; cases hl'; omega), hl]
          dsimp only
          simp [List.filter_cons, hm]
        · have hlt : acc.length < l := hacc l hl h0
          by_cases hfull : l ≤ acc.length + 1
          · rw [if_pos (by
              simp only [Bool.and_eq_true, decide_eq_true_eq]
              exact ⟨h0, by simpa using hfull⟩)]
            have hcap : l - acc.length = 1 := by omega
            simp [List.filter_cons, hm, hcap, h0]
          · rw [if_neg (by
              simp only [Bool.and_eq_true, decide_eq_true_eq, not_and]
              intro _ h
              simp only [List.length_append, List.length_singleton] at h
              omega)]
            rw [ih (acc ++ [e])
              (by intro l' hl' h0'; rw [hl] at hl'; cases hl'; simp; omega), hl]
            dsimp only
            rw [if_pos h0, if_pos h0]
            simp only [List.filter_cons, hm, if_true, List.length_append,
              List.length_singleton]
            have hcap : l - acc.length = (l - (acc.length + 1)) + 1 := by omega
            rw [hcap, List.take_succ_cons, List.append_assoc]
            rfl
    · rw [queryLoop, if_neg hm]
      rw [ih acc hacc]
      congr 1
      cases options.limit with
      | none => simp [List.filter_cons, hm]
      | some l => by_cases h0 : l = 0 <;> simp [List.filter_cons, hm, h0]

/-- C6 (amended): `queryEntities` returns exactly the stored records matching
the filter chain, truncated to `limit` when a nonzero limit is given; the
fact-type filter is satisfied by any fact of that type, the date filter by
any fact whose time (`dateRange.start`, else `timestamp`) lies in
`[since, until]` or, failing that, by `lastUpdated ≥ since` (the `until`
bound is not applied to `lastUpdated`), and the relationship filter by any
relationship of the given kind. -/
theorem queryEntities_spec (now : ℤ) (options : EntityQueryOptions)
    (entities : List EntityPage) :
    queryEntities now options entities
      = applyLimit options.limit (entities.filter (matchesFilters now options)) := by
  unfold queryEntities applyLimit
  rw [queryLoop_eq now options entities [] (by intro l _ h0; simpa using Nat.pos_of_ne_zero h0)]
  cases options.limit with
  | none => simp
  | some l => by_cases h0 : l = 0 <;> simp [h0]

end QueryClaims

/-! Capture engine (`src/memory/capture-engine.ts`, provided in the sources as
an unnamed file). The regex pattern families are embedded as deterministic
scanners; persistence through `EntityManager.addFactToEntity` can fail per
candidate (for example on a malformed entity name), which is modelled by an
environment oracle giving the outcome of the i-th persistence attempt. -/

/-- Message shape consumed by extraction (`CaptureMessage`): `content` is an
arbitrary JavaScript value — a string, an array of parts, absent, or
something else. -/
inductive ContentPart
  | obj (ptype : Option String) (text : Option String)
  | prim
deriving DecidableEq, Repr

/-- The `content` field of a capture message. -/
inductive CaptureContent
  | str (s : String)
  | arr (parts : List ContentPart)
  | missing
  | other
deriving DecidableEq, Repr

/-- A capture message (`CaptureMessage`). -/
structure CaptureMessage where
  role : String
  content : CaptureContent
deriving DecidableEq, Repr

/-- Extract plain text from message content (`extractTextFromContent`): a
string directly; for an array, the text of the first part that is an object
with `type === "text"` and a string `text`; otherwise the empty string. -/
def extractTextFromContent : CaptureContent → String
  | .str s => s
  | .arr parts =>
    match parts.find? (fun p => match p with
      | .obj (some t) _ => t = "text"
      | _ => false) with
    | some (.obj _ (some t)) => t
    | _ => ""
  | _ => ""

/-- Characters of the regex class `[A-Za-z0-9_-]`. -/
def isNameChar (c : Char) : Bool :=
  c.isAlpha || c.isDigit || c = '_' || c = '-'

/-- Word characters for the regex `\b` boundary (`[A-Za-z0-9_]`). -/
def isWordChar (c : Char) : Bool :=
  c.isAlpha || c.isDigit || c = '_'

/-- Scanner for `/@([A-Za-z0-9_-]+)/g`: every `@` followed by a non-empty
name run yields the run; scanning resumes after it. -/
def atMentionScanGo : ℕ → List Char → List String
  | 0, _ => []
  | _, [] => []
  | fuel + 1, c :: rest =>
    if c = '@' then
      let run := rest.takeWhile isNameChar
      if run.isEmpty then atMentionScanGo fuel rest
      else String.mk run :: atMentionScanGo fuel (rest.dropWhile isNameChar)
    else atMentionScanGo fuel rest

/-- Case-insensitive literal prefix match, returning the remainder. -/
def matchCiPrefix : List Char → List Char → Option (List Char)
  | [], s => some s
  | _ :: _, [] => none
  | p :: ps, c :: cs => if lowerChar c = lowerChar p then matchCiPrefix ps cs else none

/-- Scanner for `/\bwith\s+([A-Za-z0-9_-]+)\b/gi`: a case-insensitive `with`
at a word boundary, whitespace, then a name run; the trailing `\b` forces the
greedy run to backtrack over trailing hyphens. -/
def withScanGo : ℕ → Option Char → List Char → List String
  | 0, _, _ => []
  | _, _, [] => []
  | fuel + 1, prev, c :: rest =>
    if (match prev with | none => true | some p => !isWordChar p) then
      match matchCiPrefix "with".data (c :: rest) with
      | some r1 =>
        let run := r1.takeWhile isWsChar
        if run.isEmpty then withScanGo fuel (some c) rest
        else
          let tail := r1.dropWhile isWsChar
          let nrun := tail.takeWhile isNameChar
          let stripped := (nrun.reverse.dropWhile (· = '-')).reverse
          if stripped.isEmpty then withScanGo fuel (some c) rest
          else String.mk stripped ::
            withScanGo fuel stripped.getLast? (tail.drop stripped.length)
      | none => withScanGo fuel (some c) rest
    else withScanGo fuel (some c) rest

/-- Extract `@name` and `with Name` entity references
(`extractEntityMentions`); the `Set` keeps first occurrences. -/
def extractEntityMentions (text : String) : List String :=
  jsSetList (atMentionScanGo (text.data.length + 1) text.data ++
    withScanGo (text.data.length + 1) none text.data)

/-- A preference/experience pattern
`\b(?:alt1|…)\s+(?:mid1|…)?(.+?)(?:\.|$)` with flags `gi`: the alternative
list and the optional middle group (empty when the pattern has none). -/
structure CapPattern where
  alts : List String
  midOpt : List String

/-- Characters matched by `.` (anything but a line terminator). -/
def isDotChar (c : Char) : Bool :=
  !(c = '\n' || c = '\r')

/-- The lazy tail `(.+?)(?:\.|$)`: the shortest non-empty run of `.`-class
characters followed by a literal dot (consumed) or the end of input; returns
the capture, the remainder, and the last consumed character. -/
def lazyCaptureGo (acc : List Char) : List Char → Option (List Char × List Char × Option Char)
  | [] => some (acc.reverse, [], acc.head?)
  | c :: rest =>
    if c = '.' then some (acc.reverse, rest, some '.')
    else if isDotChar c then lazyCaptureGo (c :: acc) rest
    else none

/-- Entry point of the lazy tail: the capture needs at least one character. -/
def lazyCapture : List Char → Option (List Char × List Char × Option Char)
  | [] => none
  | c :: rest => if isDotChar c then lazyCaptureGo [c] rest else none

/-- The optional middle group then the lazy tail, trying the group's
alternatives in order and finally the empty option. -/
def tryMids : List String → List Char → Option (List Char × List Char × Option Char)
  | [], tail => lazyCapture tail
  | mid :: more, tail =>
    match matchCiPrefix mid.data tail with
    | some t2 =>
      match lazyCapture t2 with
      | some res => some res
      | none => tryMids more tail
    | none => tryMids more tail

/-- Try the pattern's alternatives in order at the current position: each
successful alternative must be followed by `\s+`, the optional middle group
and the lazy tail, else the next alternative is tried. (The rare `\s+`
shrinking backtrack — text ending in whitespace right after the keyword — is
not modelled; no evaluation below reaches it.) -/
def tryAlts (pat : CapPattern) (s : List Char) : Option (List Char × List Char × Option Char) :=
  go pat.alts
where
  go : List String → Option (List Char × List Char × Option Char)
    | [] => none
    | alt :: more =>
      match matchCiPrefix alt.data s with
      | some r1 =>
        if (r1.takeWhile isWsChar).isEmpty then go more
        else
          match tryMids pat.midOpt (r1.dropWhile isWsChar) with
          | some res => some res
          | none => go more
      | none => go more

/-- The `pattern.exec` loop with `g`: scan positions left to right, requiring
a word boundary before the alternative; on a match, record the capture and
resume after the match. -/
def execGo (pat : CapPattern) : ℕ → Option Char → List Char → List (List Char)
  | 0, _, _ => []
  | _, _, [] => []
  | fuel + 1, prev, c :: rest =>
    if (match prev with | none => true | some p => !isWordChar p) then
      match tryAlts pat (c :: rest) with
      | some (cap, rem, lastc) => cap :: execGo pat fuel lastc rem
      | none => execGo pat fuel (some c) rest
    else execGo pat fuel (some c) rest

/-- All captures of one pattern over a text. -/
def execCapPattern (pat : CapPattern) (text : String) : List String :=
  (execGo pat (text.data.length + 1) none text.data).map String.mk

/-- The preference patterns (`PREFERENCE_PATTERNS`); apostrophes are spliced
in via `apos`. -/
def PREFERENCE_PATTERNS : List CapPattern :=
  [⟨["I prefer", "I like", "I love", "I enjoy"], []⟩,
   ⟨["I don" ++ apos ++ "t like", "I dislike", "I hate", "don" ++ apos ++ "t"], []⟩,
   ⟨["please do", "please don" ++ apos ++ "t", "always", "never"], []⟩,
   ⟨["prefer", "want"], ["my ", "me "]⟩]

/-- The experience patterns (`EXPERIENCE_PATTERNS`). -/
def EXPERIENCE_PATTERNS : List CapPattern :=
  [⟨["we fixed", "we did", "we completed", "fixed", "completed"], []⟩,
   ⟨["decided to", "decided that"], []⟩]

/-- A candidate fact produced by extraction. -/
structure Candidate where
  content : String
  type : FactType
  entities : List String
deriving DecidableEq, Repr

/-- Record one pattern capture: trim, length-filter, dedupe by the
`type:content-prefix` key, append. -/
def addCapture (factType : FactType) (keyTag : String) (entityList : List String)
    (st : List String × List Candidate) (m : String) : List String × List Candidate :=
  let content := jsTrim m
  if content.length < 3 || content.length > 500 then st
  else
    let key := keyTag ++ String.mk (content.data.take 80)
    if key ∈ st.1 then st
    else (key :: st.1, st.2 ++ [{ content := content, type := factType, entities := entityList }])

/-- Heuristic extraction of preference-like and experience-like sentences
(`extractCandidates`); `seen` is shared across messages and patterns. -/
def extractCandidates (messages : List CaptureMessage) (defaultEntity : String) :
    List Candidate :=
  (messages.foldl (fun (st : List String × List Candidate) msg =>
    let text := extractTextFromContent msg.content
    -- `if (!text || text.length < 10) continue` (the empty string is falsy)
    if text.length < 10 then st
    else
      let entities := extractEntityMentions text
      let entityList := if entities.isEmpty then [defaultEntity] else entities
      let st1 := PREFERENCE_PATTERNS.foldl (fun st2 pat =>
        (execCapPattern pat text).foldl (addCapture .opinion "opinion:" entityList) st2) st
      EXPERIENCE_PATTERNS.foldl (fun st2 pat =>
        (execCapPattern pat text).foldl (addCapture .experience "experience:" entityList) st2)
        st1)
    ([], [])).2

/-- The persistence loop of `captureFromAgentEnd`: process candidates in
order while `captured < maxFactsPerRun`; the oracle gives the outcome of the
attempt on the i-th candidate, a failure being caught and counted as
skipped. -/
def capturePersistLoop (persistOk : ℕ → Bool) (maxFactsPerRun : ℕ) :
    List Candidate → ℕ → ℕ → ℕ → ℕ × ℕ
  | [], _, captured, skipped => (captured, skipped)
  | _ :: rest, i, captured, skipped =>
    if captured < maxFactsPerRun then
      if persistOk i then capturePersistLoop persistOk maxFactsPerRun rest (i + 1) (captured + 1) skipped
      else capturePersistLoop persistOk maxFactsPerRun rest (i + 1) captured (skipped + 1)
    else (captured, skipped)

/-- Run proactive capture after an agent run ends (`captureFromAgentEnd`):
empty messages are a no-op; otherwise extract candidates, persist up to
`maxFactsPerRun` of them (failures are skipped, not thrown), and count the
unprocessed excess as skipped. -/
def captureFromAgentEnd (persistOk : ℕ → Bool) (messages : List CaptureMessage)
    (defaultEntity : String) (maxFactsPerRun : ℕ) : ℕ × ℕ :=
  if messages.isEmpty then (0, 0)
  else
    let candidates := extractCandidates messages defaultEntity
    let r := capturePersistLoop persistOk maxFactsPerRun candidates 0 0 0
    (r.1, if candidates.length > maxFactsPerRun
      then r.2 + (candidates.length - maxFactsPerRun) else r.2)

section CaptureClaims

/-- Number of successful persistence attempts among the `n` attempts starting
at index `i`. -/
def successCount (ok : ℕ → Bool) : ℕ → ℕ → ℕ
  | _, 0 => 0
  | i, n + 1 => (if ok i then 1 else 0) + successCount ok (i + 1) n

theorem successCount_le (ok : ℕ → Bool) : ∀ (n i : ℕ), successCount ok i n ≤ n := by
  intro n
  induction n with
  | zero => intro i; simp [successCount]
  | succ n ih =>
    intro i
    rw [successCount]
    have := ih (i + 1)
    by_cases h : ok i <;> (simp [h]; omega)

theorem capturePersistLoop_go (ok : ℕ → Bool) (max : ℕ) :
    ∀ (cands : List Candidate) (i cap skip : ℕ), cap ≤ max →
      ∃ n ≤ cands.length,
        capturePersistLoop ok max cands i cap skip
          = (cap + successCount ok i n, skip + (n - successCount ok i n)) ∧
        (n = cands.length ∨ cap + successCount ok i n = max) ∧
        cap + successCount ok i n ≤ max := by
  intro cands
  induction cands with
  | nil =>
    intro i cap skip hcap
    exact ⟨0, Nat.le_refl 0, by simp [capturePersistLoop, successCount], Or.inl rfl,
      by simpa [successCount]⟩
  | cons c rest ih =>
    intro i cap skip hcap
    by_cases hlt : cap < max
    · by_cases hok : ok i
      · obtain ⟨n, hn, heq, hstop, hle⟩ := ih (i + 1) (cap + 1) skip hlt
        refine ⟨n + 1, by simpa using Nat.succ_le_succ hn, ?_, ?_, ?_⟩
        · rw [capturePersistLoop, if_pos hlt, if_pos hok, heq]
          have hsle := successCount_le ok n (i + 1)
          rw [successCount, if_pos hok]
          refine Prod.ext ?_ ?_
          · simp
            try omega
          · simp
            try omega
        · rcases hstop with h | h
          · exact Or.inl (by simp [h])
          · refine Or.inr ?_
            rw [successCount, if_pos hok]
            omega
        · rw [successCount, if_pos hok]; omega
      · obtain ⟨n, hn, heq, hstop, hle⟩ := ih (i + 1) cap (skip + 1) hcap
        refine ⟨n + 1, by simpa using Nat.succ_le_succ hn, ?_, ?_, ?_⟩
        · rw [capturePersistLoop, if_pos hlt, if_neg hok, heq]
          have hsle := successCount_le ok n (i + 1)
          rw [successCount, if_neg hok]
          refine Prod.ext ?_ ?_
          · simp
            try omega
          · simp
            try omega
        · rcases hstop with h | h
          · exact Or.inl (by simp [h])
          · refine Or.inr ?_
            rw [successCount, if_neg hok]
            omega
        · rw [successCount, if_neg hok]; omega
    · have hcapeq : cap = max := by omega
      refine ⟨0, Nat.zero_le _, ?_, Or.inr (by simp [successCount, hcapeq]), ?_⟩
      · rw [capturePersistLoop, if_neg hlt]
        simp [successCount]
      · simp [successCount, hcapeq]

/-- The concrete scenario message: five distinct preference sentences. -/
def scenarioMsg : CaptureMessage :=
  { role := "user"
    content := .str
      "I prefer apples. I like oranges. I enjoy bananas. I love grapes. I hate plums." }

/-- C5: `captureFromAgentEnd` returns `(0, 0)` on empty messages; for every
input (every persistence-outcome environment included) it is a total
function whose `captured` never exceeds `maxFactsPerRun`; the persistence
loop counts each per-candidate failure in `skipped` and continues (the
returned pair is exactly `captured = successes of the first n attempts`,
`skipped = failures of those attempts plus the excess candidates beyond
`maxFactsPerRun``); and the five-preference-sentence scenario with
`maxFactsPerRun = 2` yields `captured ≤ 2` and `skipped ≥ 3` for every
persistence environment. -/
theorem captureFromAgentEnd_spec :
    (∀ (ok : ℕ → Bool) (d : String) (m : ℕ), captureFromAgentEnd ok [] d m = (0, 0)) ∧
    (∀ (ok : ℕ → Bool) (msgs : List CaptureMessage) (d : String) (m : ℕ),
      (captureFromAgentEnd ok msgs d m).1 ≤ m) ∧
    (∀ (ok : ℕ → Bool) (msgs : List CaptureMessage) (d : String) (m : ℕ),
      msgs ≠ [] →
      ∃ n ≤ (extractCandidates msgs d).length,
        captureFromAgentEnd ok msgs d m
          = (successCount ok 0 n,
             (n - successCount ok 0 n) +
               (if (extractCandidates msgs d).length > m
                then (extractCandidates msgs d).length - m else 0)) ∧
        (n = (extractCandidates msgs d).length ∨ successCount ok 0 n = m)) ∧
    (∀ ok : ℕ → Bool,
      (captureFromAgentEnd ok [scenarioMsg] "user" 2).1 ≤ 2 ∧
      3 ≤ (captureFromAgentEnd ok [scenarioMsg] "user" 2).2) := by
  have hmain : ∀ (ok : ℕ → Bool) (msgs : List CaptureMessage) (d : String) (m : ℕ),
      msgs ≠ [] →
      ∃ n ≤ (extractCandidates msgs d).length,
        captureFromAgentEnd ok msgs d m
          = (successCount ok 0 n,
             (n - successCount ok 0 n) +
               (if (extractCandidates msgs d).length > m
                then (extractCandidates msgs d).length - m else 0)) ∧
        (n = (extractCandidates msgs d).length ∨ successCount ok 0 n = m) := by
    intro ok msgs d m hne
    obtain ⟨n, hn, heq, hstop, _⟩ :=
      capturePersistLoop_go ok m (extractCandidates msgs d) 0 0 0 (Nat.zero_le m)
    rw [Nat.zero_add, Nat.zero_add] at heq
    rw [Nat.zero_add] at hstop
    refine ⟨n, hn, ?_, hstop⟩
    unfold captureFromAgentEnd
    rw [if_neg (by simpa [List.isEmpty_iff] using hne)]
    dsimp only
    rw [heq]
    by_cases hgt : (extractCandidates msgs d).length > m <;>
      simp [hgt]
  have hcap : ∀ (ok : ℕ → Bool) (msgs : List CaptureMessage) (d : String) (m : ℕ),
      (captureFromAgentEnd ok msgs d m).1 ≤ m := by
    intro ok msgs d m
    unfold captureFromAgentEnd
    by_cases hne : msgs.isEmpty
    · rw [if_pos hne]; exact Nat.zero_le m
    · rw [if_neg hne]
      obtain ⟨n, _, heq, _, hle⟩ :=
        capturePersistLoop_go ok m (extractCandidates msgs d) 0 0 0 (Nat.zero_le m)
      dsimp only
      rw [heq]
      simpa using hle
  refine ⟨?_, hcap, hmain, ?_⟩
  · intro ok d m
    rfl
  · intro ok
    refine ⟨hcap ok [scenarioMsg] "user" 2, ?_⟩
    obtain ⟨n, hn, heq, _⟩ := hmain ok [scenarioMsg] "user" 2 (by simp)
    have hlen : (extractCandidates [scenarioMsg] "user").length = 5 := by decide
    rw [heq]
    rw [hlen] at hn ⊢
    have := successCount_le ok n 0
    simp only [show (5 > 2) = True by simp, if_true]
    omega

/-- The C5 theorem instantiated at concrete inputs: the empty message list is
a no-op, and the five-preference scenario with `maxFactsPerRun = 2` yields
`captured ≤ 2` and `skipped ≥ 3`. -/
theorem captureFromAgentEnd_spec_witness :
    captureFromAgentEnd (fun _ => true) [] "user" 2 = (0, 0) ∧
    (captureFromAgentEnd (fun _ => true) [scenarioMsg] "user" 2).1 ≤ 2 ∧
    3 ≤ (captureFromAgentEnd (fun _ => true) [scenarioMsg] "user" 2).2 :=
  ⟨captureFromAgentEnd_spec.1 (fun _ => true) "user" 2,
   (captureFromAgentEnd_spec.2.2.2 (fun _ => true)).1,
   (captureFromAgentEnd_spec.2.2.2 (fun _ => true)).2⟩

end CaptureClaims

/-! Multi-hop retrieval (`src/memory/capture-hooks.ts` second part, the
original `src/memory/multi-hop.ts`). The external base search is a function
parameter, as in the source. The accumulator is a JavaScript `Map` keyed by
the string `` `${path}:${startLine}:${endLine}` `` (an absent line number
stringifies as `undefined`); the map is modelled as an insertion-ordered
association list on that string key. -/

/-- A base search result (`MemorySearchResult`, from `manager.ts`; the fields
the retrieval layer reads). -/
structure MemorySearchResult where
  path : String
  startLine : Option ℕ
  endLine : Option ℕ
  score : ℚ
  snippet : String
deriving DecidableEq, Repr

/-- A multi-hop result (`MultiHopResult`): a search result plus the hop that
found it and the query used. -/
structure MultiHopResult where
  path : String
  startLine : Option ℕ
  endLine : Option ℕ
  score : ℚ
  snippet : String
  hop : ℕ
  query : String
deriving DecidableEq, Repr

/-- Spread of a search result into a hop-annotated result
(`{ ...result, hop, query }`). -/
def MemorySearchResult.toMultiHop (r : MemorySearchResult) (hop : ℕ) (query : String) :
    MultiHopResult :=
  { path := r.path, startLine := r.startLine, endLine := r.endLine, score := r.score,
    snippet := r.snippet, hop := hop, query := query }

/-- The map key string. -/
abbrev HopKey := String

/-- Template-literal interpolation of an optional line number
(`undefined` when absent). -/
def optNatStr : Option ℕ → String
  | none => "undefined"
  | some n => toString n

/-- Key of a search result: `` `${result.path}:${result.startLine}:${result.endLine}` ``. -/
def keyOf (r : MemorySearchResult) : HopKey :=
  r.path ++ ":" ++ optNatStr r.startLine ++ ":" ++ optNatStr r.endLine

/-- `Map.get`. -/
def mapGet (m : List (HopKey × MultiHopResult)) (k : HopKey) : Option MultiHopResult :=
  (m.find? (fun e => e.1 = k)).map (·.2)

/-- `Map.set`: replace in place when the key exists (JavaScript maps keep the
original insertion position), else append. -/
def mapSet (m : List (HopKey × MultiHopResult)) (k : HopKey) (v : MultiHopResult) :
    List (HopKey × MultiHopResult) :=
  if m.any (fun e => e.1 = k) then m.map (fun e => if e.1 = k then (k, v) else e)
  else m ++ [(k, v)]

/-- One iteration of the `for (const result of results)` merge loop: add the
result when its key is new, replace the entry when this hop found it with a
strictly better score, else leave the map unchanged. -/
def mergeStep (acc : List (HopKey × MultiHopResult)) (hop : ℕ) (query : String)
    (result : MemorySearchResult) : List (HopKey × MultiHopResult) :=
  match mapGet acc (keyOf result) with
  | none => mapSet acc (keyOf result) (result.toMultiHop hop query)
  | some existing =>
    if existing.score < result.score then
      mapSet acc (keyOf result) (result.toMultiHop hop query)
    else acc

/-- The per-hop merge of `multiHopRetrieval`: fold `mergeStep` over the hop's
results. -/
def mergeResults (acc : List (HopKey × MultiHopResult)) (hop : ℕ) (query : String)
    (results : List MemorySearchResult) : List (HopKey × MultiHopResult) :=
  results.foldl (fun acc result => mergeStep acc hop query result) acc

/-- `Math.max(...scores)` over the accumulated values (the empty case is
`-Infinity` in JavaScript but is only evaluated behind the non-empty results
guard; `0` stands in for it). -/
def bestScoreOf (acc : List (HopKey × MultiHopResult)) : ℚ :=
  match acc with
  | [] => 0
  | e :: rest => rest.foldl (fun b x => max b x.2.score) e.2.score

/-- Result of query expansion (`ExpandedQuery` of
`src/memory/query-expansion.ts`): the expanded query and the newly appended
terms. The retrieval loop only reads these two fields. -/
structure ExpandResult where
  expanded : String
  expandedTerms : List String
deriving DecidableEq, Repr

/-- Relation ordering candidate expansion terms by descending frequency. -/
def freqDesc (occurrences : List String) (a b : String) : Prop :=
  occurrences.count b ≤ occurrences.count a

instance (occurrences : List String) : DecidableRel (freqDesc occurrences) := fun a b =>
  inferInstanceAs (Decidable (occurrences.count b ≤ occurrences.count a))

/-- Modelled from the spec: `expandQueryFromResults` lives in
`src/memory/query-expansion.ts`, which is not among the provided source files
(only its caller `multiHopRetrieval` is). Per the spec, query expansion
appends a bounded set of terms inferred from the current result snippets via
frequency ranking minus stop-words, skipping words already in the query, and
reports the appended terms; when no terms are available the query is returned
unchanged with an empty term list. -/
def expandQueryFromResults (query : String) (results : List MemorySearchResult)
    (maxTerms : ℕ) : ExpandResult :=
  let queryWords := (jsSplitWs (jsToLower query)).filter (fun w => w ≠ "")
  let stopWords := ["the", "and", "for", "with", "that", "this", "from", "have", "has"]
  let occurrences := results.flatMap (fun r =>
    ((jsSplitWs (jsToLower r.snippet)).filter (fun w => decide (3 < w.length))).filter
      (fun w => !(queryWords.contains w) && !(stopWords.contains w)))
  let ranked := List.insertionSort (freqDesc occurrences) (jsSetList occurrences)
  let expandedTerms := ranked.take maxTerms
  { expanded :=
      if expandedTerms.isEmpty then query
      else query ++ " " ++ String.intercalate " " expandedTerms
    expandedTerms := expandedTerms }

/-- Loop state of `multiHopRetrieval`. The `searchLog` field additionally
records the result list of every `searchFn` call so that call-count
properties can be stated; it is never read by the loop and does not influence
control flow. -/
structure MultiHopState where
  allResults : List (HopKey × MultiHopResult)
  previousBestScore : ℚ
  currentQuery : String
  searchLog : List (List MemorySearchResult)
deriving Repr

/-- The `for (hop …)` loop of `multiHopRetrieval`; `rem` is the number of
remaining iterations (`maxHops - hop`). -/
def multiHopGo (searchFn : String → ℕ → List MemorySearchResult)
    (expandFn : String → List MemorySearchResult → ℕ → ExpandResult)
    (minImprovement : ℚ) (resultsPerHop maxHops : ℕ) :
    ℕ → ℕ → MultiHopState → MultiHopState
  | _, 0, st => st
  | hop, rem + 1, st =>
    let results := searchFn st.currentQuery (resultsPerHop * 2)
    let st1 := { st with searchLog := st.searchLog ++ [results] }
    if results.isEmpty then st1
    else
      let acc2 := mergeResults st1.allResults hop st1.currentQuery results
      let best := bestScoreOf acc2
      if best - st1.previousBestScore < minImprovement ∧ 0 < hop then
        -- No significant improvement, stop
        { st1 with allResults := acc2 }
      else
        let st2 := { st1 with allResults := acc2, previousBestScore := best }
        if hop < maxHops - 1 ∧ ¬results.isEmpty then
          let expanded := expandFn st2.currentQuery results 2
          if expanded.expandedTerms.isEmpty then
            -- No expansion possible, stop
            st2
          else
            multiHopGo searchFn expandFn minImprovement resultsPerHop maxHops
              (hop + 1) rem { st2 with currentQuery := expanded.expanded }
        else
          multiHopGo searchFn expandFn minImprovement resultsPerHop maxHops
            (hop + 1) rem st2

/-- The final loop state of a `multiHopRetrieval` run (`maxHops`,
`minImprovement` and `resultsPerHop` default to `2`, `0.05` and `10` at the
call site). -/
def multiHopRun (searchFn : String → ℕ → List MemorySearchResult)
    (expandFn : String → List MemorySearchResult → ℕ → ExpandResult)
    (query : String) (maxHops : ℕ) (minImprovement : ℚ) (resultsPerHop : ℕ) :
    MultiHopState :=
  multiHopGo searchFn expandFn minImprovement resultsPerHop maxHops 0 maxHops
    { allResults := [], previousBestScore := 0, currentQuery := query, searchLog := [] }

/-- The comparator `(a, b) => b.score - a.score`. -/
def scoreDesc (a b : MultiHopResult) : Prop := b.score ≤ a.score

instance : DecidableRel scoreDesc := fun a b =>
  inferInstanceAs (Decidable (b.score ≤ a.score))

instance : IsTotal MultiHopResult scoreDesc := ⟨fun a b => le_total b.score a.score⟩

instance : IsTrans MultiHopResult scoreDesc := ⟨fun _ _ _ h1 h2 => le_trans h2 h1⟩

/-- Perform multi-hop retrieval (`multiHopRetrieval`): run the loop, then
sort the accumulated values by descending score and truncate to
`resultsPerHop * maxHops`. -/
def multiHopRetrieval (searchFn : String → ℕ → List MemorySearchResult)
    (expandFn : String → List MemorySearchResult → ℕ → ExpandResult)
    (query : String) (maxHops : ℕ) (minImprovement : ℚ) (resultsPerHop : ℕ) :
    List MultiHopResult :=
  let final := multiHopRun searchFn expandFn query maxHops minImprovement resultsPerHop
  (List.insertionSort scoreDesc (final.allResults.map (·.2))).take (resultsPerHop * maxHops)

section MultiHopLemmas

lemma find?_replace_ne (m : List (HopKey × MultiHopResult)) (k k' : HopKey)
    (v : MultiHopResult) (hne : k' ≠ k) :
    (m.map (fun e => if e.1 = k then (k, v) else e)).find? (fun e => e.1 = k') =
      m.find? (fun e => e.1 = k') := by
  induction m with
  | nil => rfl
  | cons e t ih =>
    simp only [List.map_cons, List.find?_cons]
    by_cases he : e.1 = k
    · rw [if_pos he]
      have h1 : (decide ((k, v).1 = k')) = false := by
        simp only [decide_eq_false_iff_not]
        exact fun h => hne (h.symm)
      have h2 : (decide (e.1 = k')) = false := by
        simp only [decide_eq_false_iff_not]
        exact fun h => hne (he ▸ h).symm
      rw [h1, h2, ih]
    · rw [if_neg he]
      cases hd : decide (e.1 = k') with
      | true => rfl
      | false => exact ih

lemma mapGet_set_self (m : List (HopKey × MultiHopResult)) (k : HopKey)
    (v : MultiHopResult) : mapGet (mapSet m k v) k = some v := by
  rw [mapSet]
  split
  · rename_i h
    induction m with
    | nil => simp at h
    | cons e t ih =>
      simp only [List.map_cons]
      by_cases he : e.1 = k
      · rw [if_pos he]
        simp [mapGet, List.find?_cons]
      · rw [if_neg he]
        have ht : t.any (fun e => e.1 = k) = true := by
          rcases List.any_eq_true.mp h with ⟨x, hx, hpx⟩
          rcases List.mem_cons.mp hx with hhead | hx'
          · exact absurd (of_decide_eq_true (hhead ▸ hpx)) he
          · exact List.any_eq_true.mpr ⟨x, hx', hpx⟩
        have hrec := ih ht
        rw [mapGet, List.find?_cons, decide_eq_false he]
        exact hrec
  · rw [mapGet, List.find?_append]
    rename_i h
    have hm : m.find? (fun e => e.1 = k) = none := by
      rw [List.find?_eq_none]
      intro x hx
      simp only [decide_eq_true_eq]
      intro hxk
      exact h (List.any_eq_true.mpr ⟨x, hx, decide_eq_true hxk⟩)
    rw [hm]
    simp [List.find?_cons]

lemma mapGet_set_ne (m : List (HopKey × MultiHopResult)) (k k' : HopKey)
    (v : MultiHopResult) (hne : k' ≠ k) :
    mapGet (mapSet m k v) k' = mapGet m k' := by
  rw [mapSet]
  split
  · rw [mapGet, find?_replace_ne m k k' v hne, mapGet]
  · rw [mapGet, List.find?_append, mapGet]
    have h1 : ([(k, v)].find? (fun e => e.1 = k')) = none := by
      simp [List.find?_cons, hne.symm]
    rw [h1]
    simp

lemma mem_mapSet (m : List (HopKey × MultiHopResult)) (k : HopKey)
    (v : MultiHopResult) (e : HopKey × MultiHopResult) (he : e ∈ mapSet m k v) :
    e = (k, v) ∨ e ∈ m := by
  rw [mapSet] at he
  split at he
  · rw [List.mem_map] at he
    obtain ⟨x, hx, hfx⟩ := he
    by_cases hxk : x.1 = k
    · rw [if_pos hxk] at hfx
      exact Or.inl hfx.symm
    · rw [if_neg hxk] at hfx
      exact Or.inr (hfx ▸ hx)
  · rw [List.mem_append] at he
    rcases he with h | h
    · exact Or.inr h
    · simp only [List.mem_singleton] at h
      exact Or.inl h

lemma mergeStep_eq_none (acc : List (HopKey × MultiHopResult)) (hop : ℕ) (q : String)
    (r : MemorySearchResult) (hg : mapGet acc (keyOf r) = none) :
    mergeStep acc hop q r = mapSet acc (keyOf r) (r.toMultiHop hop q) := by
  rw [mergeStep, hg]

lemma mergeStep_eq_lt (acc : List (HopKey × MultiHopResult)) (hop : ℕ) (q : String)
    (r : MemorySearchResult) (existing : MultiHopResult)
    (hg : mapGet acc (keyOf r) = some existing) (hlt : existing.score < r.score) :
    mergeStep acc hop q r = mapSet acc (keyOf r) (r.toMultiHop hop q) := by
  rw [mergeStep, hg]
  exact if_pos hlt

lemma mergeStep_eq_ge (acc : List (HopKey × MultiHopResult)) (hop : ℕ) (q : String)
    (r : MemorySearchResult) (existing : MultiHopResult)
    (hg : mapGet acc (keyOf r) = some existing) (hge : ¬existing.score < r.score) :
    mergeStep acc hop q r = acc := by
  rw [mergeStep, hg]
  exact if_neg hge

lemma mergeStep_get_mono (acc : List (HopKey × MultiHopResult)) (hop : ℕ) (q : String)
    (r : MemorySearchResult) (k : HopKey) (v : MultiHopResult)
    (h : mapGet acc k = some v) :
    ∃ v', mapGet (mergeStep acc hop q r) k = some v' ∧ v.score ≤ v'.score := by
  by_cases hk : k = keyOf r
  · subst hk
    cases hg : mapGet acc (keyOf r) with
    | none =>
      rw [hg] at h
      exact absurd h (by simp)
    | some existing =>
      rw [hg] at h
      obtain rfl : v = existing := (Option.some.inj h).symm
      by_cases hlt : v.score < r.score
      · rw [mergeStep_eq_lt acc hop q r v hg hlt, mapGet_set_self]
        exact ⟨r.toMultiHop hop q, rfl, le_of_lt hlt⟩
      · rw [mergeStep_eq_ge acc hop q r v hg hlt]
        exact ⟨v, hg, le_refl _⟩
  · cases hg : mapGet acc (keyOf r) with
    | none =>
      rw [mergeStep_eq_none acc hop q r hg, mapGet_set_ne _ _ _ _ hk]
      exact ⟨v, h, le_refl _⟩
    | some existing =>
      by_cases hlt : existing.score < r.score
      · rw [mergeStep_eq_lt acc hop q r existing hg hlt, mapGet_set_ne _ _ _ _ hk]
        exact ⟨v, h, le_refl _⟩
      · rw [mergeStep_eq_ge acc hop q r existing hg hlt]
        exact ⟨v, h, le_refl _⟩

lemma mergeStep_covers (acc : List (HopKey × MultiHopResult)) (hop : ℕ) (q : String)
    (r : MemorySearchResult) :
    ∃ v', mapGet (mergeStep acc hop q r) (keyOf r) = some v' ∧ r.score ≤ v'.score := by
  cases hg : mapGet acc (keyOf r) with
  | none =>
    rw [mergeStep_eq_none acc hop q r hg, mapGet_set_self]
    exact ⟨r.toMultiHop hop q, rfl, le_refl _⟩
  | some existing =>
    by_cases hlt : existing.score < r.score
    · rw [mergeStep_eq_lt acc hop q r existing hg hlt, mapGet_set_self]
      exact ⟨r.toMultiHop hop q, rfl, le_refl _⟩
    · rw [mergeStep_eq_ge acc hop q r existing hg hlt]
      exact ⟨existing, hg, le_of_not_lt hlt⟩

lemma mergeStep_origin (acc : List (HopKey × MultiHopResult)) (hop : ℕ) (q : String)
    (r : MemorySearchResult) (e : HopKey × MultiHopResult)
    (he : e ∈ mergeStep acc hop q r) :
    e ∈ acc ∨ (e.1 = keyOf r ∧ e.2.score = r.score) := by
  have hset : e ∈ mapSet acc (keyOf r) (r.toMultiHop hop q) →
      e ∈ acc ∨ (e.1 = keyOf r ∧ e.2.score = r.score) := by
    intro hm
    rcases mem_mapSet _ _ _ _ hm with h | h
    · subst h
      exact Or.inr ⟨rfl, rfl⟩
    · exact Or.inl h
  cases hg : mapGet acc (keyOf r) with
  | none =>
    rw [mergeStep_eq_none acc hop q r hg] at he
    exact hset he
  | some existing =>
    by_cases hlt : existing.score < r.score
    · rw [mergeStep_eq_lt acc hop q r existing hg hlt] at he
      exact hset he
    · rw [mergeStep_eq_ge acc hop q r existing hg hlt] at he
      exact Or.inl he

lemma mergeResults_get_mono (hop : ℕ) (q : String) (rs : List MemorySearchResult) :
    ∀ (acc : List (HopKey × MultiHopResult)) (k : HopKey) (v : MultiHopResult),
      mapGet acc k = some v →
      ∃ v', mapGet (mergeResults acc hop q rs) k = some v' ∧ v.score ≤ v'.score := by
  induction rs with
  | nil => exact fun acc k v h => ⟨v, h, le_refl _⟩
  | cons r rs ih =>
    intro acc k v h
    obtain ⟨v1, hv1, hle1⟩ := mergeStep_get_mono acc hop q r k v h
    obtain ⟨v2, hv2, hle2⟩ := ih (mergeStep acc hop q r) k v1 hv1
    exact ⟨v2, hv2, le_trans hle1 hle2⟩

lemma mergeResults_covers (hop : ℕ) (q : String) (rs : List MemorySearchResult) :
    ∀ (acc : List (HopKey × MultiHopResult)) (r : MemorySearchResult), r ∈ rs →
      ∃ v', mapGet (mergeResults acc hop q rs) (keyOf r) = some v' ∧ r.score ≤ v'.score := by
  induction rs with
  | nil => intro acc r h; exact absurd h (List.not_mem_nil r)
  | cons r0 rs ih =>
    intro acc r h
    rcases List.mem_cons.mp h with h | h
    · subst h
      obtain ⟨v1, hv1, hle1⟩ := mergeStep_covers acc hop q r
      obtain ⟨v2, hv2, hle2⟩ := mergeResults_get_mono hop q rs (mergeStep acc hop q r) _ v1 hv1
      exact ⟨v2, hv2, le_trans hle1 hle2⟩
    · exact ih (mergeStep acc hop q r0) r h

lemma mergeResults_origin (hop : ℕ) (q : String) (rs : List MemorySearchResult) :
    ∀ (acc : List (HopKey × MultiHopResult)) (e : HopKey × MultiHopResult),
      e ∈ mergeResults acc hop q rs →
      e ∈ acc ∨ ∃ r, r ∈ rs ∧ e.1 = keyOf r ∧ e.2.score = r.score := by
  induction rs with
  | nil => exact fun acc e h => Or.inl h
  | cons r0 rs ih =>
    intro acc e he
    rcases ih (mergeStep acc hop q r0) e he with h | ⟨r, hr, hk, hs⟩
    · rcases mergeStep_origin acc hop q r0 e h with h' | h'
      · exact Or.inl h'
      · exact Or.inr ⟨r0, List.mem_cons_self .., h'⟩
    · exact Or.inr ⟨r, List.mem_cons_of_mem _ hr, hk, hs⟩

lemma mergeResults_noop (hop : ℕ) (q : String) (rs : List MemorySearchResult) :
    ∀ (acc : List (HopKey × MultiHopResult)),
      (∀ r ∈ rs, ∃ v, mapGet acc (keyOf r) = some v ∧ r.score ≤ v.score) →
      mergeResults acc hop q rs = acc := by
  induction rs with
  | nil => exact fun acc _ => rfl
  | cons r0 rs ih =>
    intro acc h
    obtain ⟨v, hv, hle⟩ := h r0 (List.mem_cons_self ..)
    have hstep : mergeStep acc hop q r0 = acc :=
      mergeStep_eq_ge acc hop q r0 v hv (not_lt.mpr hle)
    show mergeResults (mergeStep acc hop q r0) hop q rs = acc
    rw [hstep]
    exact ih acc (fun r hr => h r (List.mem_cons_of_mem _ hr))

/-- The accumulator and log correspondence maintained by the merge: every
searched result is represented at its key with at least its own score, and
every entry in the map carries the score of some searched result with that
key. -/
def MergeInv (acc : List (HopKey × MultiHopResult))
    (log : List (List MemorySearchResult)) : Prop :=
  (∀ r ∈ log.flatten, ∃ v, mapGet acc (keyOf r) = some v ∧ r.score ≤ v.score) ∧
  (∀ e ∈ acc, ∃ r, r ∈ log.flatten ∧ e.1 = keyOf r ∧ e.2.score = r.score)

lemma mergeInv_step (acc : List (HopKey × MultiHopResult))
    (log : List (List MemorySearchResult)) (hop : ℕ) (q : String)
    (rs : List MemorySearchResult) (h : MergeInv acc log) :
    MergeInv (mergeResults acc hop q rs) (log ++ [rs]) := by
  constructor
  · intro r hr
    rw [List.flatten_append, List.mem_append] at hr
    rcases hr with hr | hr
    · obtain ⟨v, hv, hle⟩ := h.1 r hr
      obtain ⟨v', hv', hle'⟩ := mergeResults_get_mono hop q rs acc _ v hv
      exact ⟨v', hv', le_trans hle hle'⟩
    · simp only [List.flatten_cons, List.flatten_nil, List.append_nil] at hr
      exact mergeResults_covers hop q rs acc r hr
  · intro e he
    rcases mergeResults_origin hop q rs acc e he with h' | ⟨r, hr, hk, hs⟩
    · obtain ⟨r, hr, hk, hs⟩ := h.2 e h'
      exact ⟨r, by rw [List.flatten_append]; exact List.mem_append_left _ hr, hk, hs⟩
    · refine ⟨r, ?_, hk, hs⟩
      rw [List.flatten_append]
      refine List.mem_append_right _ ?_
      simp only [List.flatten_cons, List.flatten_nil, List.append_nil]
      exact hr

lemma mergeInv_pad (acc : List (HopKey × MultiHopResult))
    (log : List (List MemorySearchResult)) (h : MergeInv acc log) :
    MergeInv acc (log ++ [[]]) := by
  constructor
  · intro r hr
    rw [List.flatten_append] at hr
    simp only [List.flatten_cons, List.flatten_nil, List.append_nil] at hr
    exact h.1 r hr
  · intro e he
    obtain ⟨r, hr, hk, hs⟩ := h.2 e he
    exact ⟨r, by rw [List.flatten_append]; exact List.mem_append_left _ hr, hk, hs⟩

lemma multiHopGo_inv (searchFn : String → ℕ → List MemorySearchResult)
    (expandFn : String → List MemorySearchResult → ℕ → ExpandResult)
    (minImprovement : ℚ) (resultsPerHop maxHops : ℕ) :
    ∀ (rem hop : ℕ) (st : MultiHopState), MergeInv st.allResults st.searchLog →
      MergeInv (multiHopGo searchFn expandFn minImprovement resultsPerHop maxHops
          hop rem st).allResults
        (multiHopGo searchFn expandFn minImprovement resultsPerHop maxHops
          hop rem st).searchLog := by
  intro rem
  induction rem with
  | zero => intro hop st h; exact h
  | succ n ih =>
    intro hop st h
    rw [multiHopGo]
    dsimp only
    by_cases hres : (searchFn st.currentQuery (resultsPerHop * 2)).isEmpty = true
    · rw [if_pos hres]
      have : searchFn st.currentQuery (resultsPerHop * 2) = [] := by
        rwa [List.isEmpty_iff] at hres
      rw [this]
      exact mergeInv_pad _ _ h
    · rw [if_neg hres]
      have hmerged : MergeInv
          (mergeResults st.allResults hop st.currentQuery
            (searchFn st.currentQuery (resultsPerHop * 2)))
          (st.searchLog ++ [searchFn st.currentQuery (resultsPerHop * 2)]) :=
        mergeInv_step _ _ _ _ _ h
      split
      · exact hmerged
      · split
        · split
          · exact hmerged
          · exact ih (hop + 1) _ hmerged
        · exact ih (hop + 1) _ hmerged

lemma multiHopGo_log_length (searchFn : String → ℕ → List MemorySearchResult)
    (expandFn : String → List MemorySearchResult → ℕ → ExpandResult)
    (minImprovement : ℚ) (resultsPerHop maxHops : ℕ) :
    ∀ (rem hop : ℕ) (st : MultiHopState),
      (multiHopGo searchFn expandFn minImprovement resultsPerHop maxHops
          hop rem st).searchLog.length ≤ st.searchLog.length + rem := by
  intro rem
  induction rem with
  | zero => intro hop st; exact Nat.le_add_right _ 0
  | succ n ih =>
    intro hop st
    rw [multiHopGo]
    dsimp only
    split
    · simp only [List.length_append, List.length_singleton]
      omega
    · split
      · simp only [List.length_append, List.length_singleton]
        omega
      · split
        · split
          · simp only [List.length_append, List.length_singleton]
            omega
          · refine le_trans (ih (hop + 1) _) ?_
            simp only [List.length_append, List.length_singleton]
            omega
        · refine le_trans (ih (hop + 1) _) ?_
          simp only [List.length_append, List.length_singleton]
          omega

lemma multiHopRun_const_search (searchFn : String → ℕ → List MemorySearchResult)
    (expandFn : String → List MemorySearchResult → ℕ → ExpandResult)
    (query : String) (maxHops : ℕ) (minImprovement : ℚ) (resultsPerHop : ℕ)
    (L : List MemorySearchResult) (hL : L ≠ [])
    (hconst : ∀ q n, searchFn q n = L) (hmi : 0 < minImprovement) :
    (multiHopRun searchFn expandFn query maxHops minImprovement
        resultsPerHop).searchLog.length ≤ 2 := by
  have hnand : ∀ A : Prop, ¬(A ∧ 0 < (0 : ℕ)) := fun A h => absurd h.2 (lt_irrefl 0)
  have hne : L.isEmpty = false := by simp [List.isEmpty_iff, hL]
  rw [multiHopRun]
  cases maxHops with
  | zero => rw [multiHopGo]; simp
  | succ m =>
    rw [multiHopGo]
    dsimp only
    rw [hconst, hne]
    rw [if_neg (by simp)]
    rw [if_neg (hnand _)]
    cases m with
    | zero =>
      rw [if_neg (by simp)]
      rw [multiHopGo]
      simp
    | succ m' =>
      rw [if_pos (⟨by omega, by simp⟩ : 0 < m' + 1 + 1 - 1 ∧ ¬false = true)]
      by_cases hexp : (expandFn query L 2).expandedTerms.isEmpty = true
      · rw [if_pos hexp]
        simp
      · rw [if_neg hexp]
        rw [multiHopGo]
        dsimp only
        rw [hconst, hne]
        rw [if_neg (by simp)]
        have hnoop : mergeResults (mergeResults [] 0 query L) (0 + 1)
            (expandFn query L 2).expanded L = mergeResults [] 0 query L :=
          mergeResults_noop _ _ L _ (fun r hr => mergeResults_covers 0 query L [] r hr)
        rw [hnoop]
        rw [if_pos (⟨by rw [sub_self]; exact hmi, by omega⟩ :
          bestScoreOf (mergeResults [] 0 query L) - bestScoreOf (mergeResults [] 0 query L) <
            minImprovement ∧ 0 < 0 + 1)]
        simp

end MultiHopLemmas

/-- A first result for the C3 run: score 0.9, snippet equal to the query. -/
def cexR1 : MemorySearchResult :=
  { path := "a.md", startLine := none, endLine := none, score := mkRat 9 10, snippet := "alpha" }

/-- A second result for the C3 run: score 0.8, snippet equal to the query. -/
def cexR2 : MemorySearchResult :=
  { path := "b.md", startLine := none, endLine := none, score := mkRat 4 5, snippet := "alpha" }

/-- A base search returning two results for the initial query and nothing
else; its snippets yield no expansion terms. -/
def searchCex : String → ℕ → List MemorySearchResult := fun q _ =>
  if q = "alpha" then [cexR1, cexR2] else []

set_option maxRecDepth 10000 in
/-- C3: counterexample to the claimed truncation bound. With `maxHops = 2`,
`resultsPerHop = 1` and a base search whose snippets yield no expansion
terms, the loop stops after one hop (`hopsRun = 1`, one search call), yet the
returned list has 2 entries: the code truncates to
`resultsPerHop * maxHops = 2`, not `resultsPerHop * hopsRun = 1`. -/
theorem multiHopRetrieval_truncation_counterexample :
    (multiHopRun searchCex expandQueryFromResults "alpha" 2 (mkRat 1 20) 1).searchLog.length
        = 1 ∧
    (multiHopRetrieval searchCex expandQueryFromResults "alpha" 2 (mkRat 1 20) 1).length = 2 ∧
    ¬((multiHopRetrieval searchCex expandQueryFromResults "alpha" 2 (mkRat 1 20) 1).length ≤
        1 * (multiHopRun searchCex expandQueryFromResults "alpha" 2
              (mkRat 1 20) 1).searchLog.length) := by
  have hnand : ∀ A : Prop, ¬(A ∧ 0 < (0 : ℕ)) := fun A h => absurd h.2 (lt_irrefl 0)
  have hexp : (expandQueryFromResults "alpha" [cexR1, cexR2] 2).expandedTerms = [] := by
    decide
  rw [multiHopRetrieval, multiHopRun, multiHopGo]
  simp only [searchCex, if_true, List.isEmpty_cons, Bool.false_eq_true, if_false]
  rw [if_neg (hnand _)]
  simp [hexp]
  split <;> simp

/-- C3 (amended): for every base search function, expansion function, query
and options, the multi-hop retrieval loop calls the search function at most
`maxHops` times; the output is the accumulator sorted descending by score,
truncated to `resultsPerHop * maxHops` entries (not `resultsPerHop * hopsRun`);
the accumulator is keyed by `` `${path}:${startLine}:${endLine}` `` and keeps
the higher score on re-discovery: every searched result is represented at its
key with at least its own score, and every accumulated entry carries the score
of some searched result with that key; and when the search constantly returns
a fixed non-empty result list and `minImprovement` is positive, the loop stops
after at most 2 search calls (early stop on no improvement after hop 0). -/
theorem multiHopRetrieval_spec (searchFn : String → ℕ → List MemorySearchResult)
    (expandFn : String → List MemorySearchResult → ℕ → ExpandResult)
    (query : String) (maxHops : ℕ) (minImprovement : ℚ) (resultsPerHop : ℕ) :
    (multiHopRun searchFn expandFn query maxHops minImprovement
        resultsPerHop).searchLog.length ≤ maxHops ∧
    List.Sorted scoreDesc
      (multiHopRetrieval searchFn expandFn query maxHops minImprovement resultsPerHop) ∧
    (multiHopRetrieval searchFn expandFn query maxHops minImprovement
        resultsPerHop).length ≤ resultsPerHop * maxHops ∧
    multiHopRetrieval searchFn expandFn query maxHops minImprovement resultsPerHop =
      (List.insertionSort scoreDesc
        ((multiHopRun searchFn expandFn query maxHops minImprovement
            resultsPerHop).allResults.map (·.2))).take (resultsPerHop * maxHops) ∧
    (∀ r ∈ (multiHopRun searchFn expandFn query maxHops minImprovement
        resultsPerHop).searchLog.flatten,
      ∃ v, mapGet (multiHopRun searchFn expandFn query maxHops minImprovement
            resultsPerHop).allResults (keyOf r) = some v ∧ r.score ≤ v.score) ∧
    (∀ e ∈ (multiHopRun searchFn expandFn query maxHops minImprovement
        resultsPerHop).allResults,
      ∃ r, r ∈ (multiHopRun searchFn expandFn query maxHops minImprovement
            resultsPerHop).searchLog.flatten ∧ e.1 = keyOf r ∧ e.2.score = r.score) ∧
    (∀ L : List MemorySearchResult, L ≠ [] → (∀ q n, searchFn q n = L) →
      0 < minImprovement →
      (multiHopRun searchFn expandFn query maxHops minImprovement
          resultsPerHop).searchLog.length ≤ 2) := by
  have hinv : MergeInv
      (multiHopRun searchFn expandFn query maxHops minImprovement
        resultsPerHop).allResults
      (multiHopRun searchFn expandFn query maxHops minImprovement
        resultsPerHop).searchLog := by
    rw [multiHopRun]
    exact multiHopGo_inv searchFn expandFn minImprovement resultsPerHop maxHops maxHops 0 _
      ⟨by simp [List.flatten_nil], by simp⟩
  refine ⟨?_, ?_, ?_, rfl, hinv.1, hinv.2, ?_⟩
  · rw [multiHopRun]
    have := multiHopGo_log_length searchFn expandFn minImprovement resultsPerHop maxHops
      maxHops 0
      { allResults := [], previousBestScore := 0, currentQuery := query, searchLog := [] }
    simpa using this
  · rw [multiHopRetrieval]
    exact List.Pairwise.sublist (List.take_sublist _ _) (List.sorted_insertionSort _ _)
  · rw [multiHopRetrieval]
    exact List.length_take_le _ _
  · exact fun L hL hconst hmi =>
      multiHopRun_const_search searchFn expandFn query maxHops minImprovement resultsPerHop
        L hL hconst hmi

/-- The C3 theorem instantiated at a concrete run, with the constant-search
hypotheses of its last conjunct discharged at a singleton result list. -/
theorem multiHopRetrieval_spec_witness :
    (multiHopRun (fun _ _ => [cexR1]) (fun q _ _ => ⟨q, []⟩) "q" 5
        (mkRat 1 20) 10).searchLog.length ≤ 5 ∧
    (multiHopRetrieval (fun _ _ => [cexR1]) (fun q _ _ => ⟨q, []⟩) "q" 5
        (mkRat 1 20) 10).length ≤ 10 * 5 ∧
    (multiHopRun (fun _ _ => [cexR1]) (fun q _ _ => ⟨q, []⟩) "q" 5
        (mkRat 1 20) 10).searchLog.length ≤ 2 := by
  have h := multiHopRetrieval_spec (fun _ _ => [cexR1]) (fun q _ _ => ⟨q, []⟩) "q" 5
    (mkRat 1 20) 10
  exact ⟨h.1, h.2.2.1, h.2.2.2.2.2.2 [cexR1] (by simp) (fun _ _ => rfl) (by decide)⟩

end OpenClaw
